import Mathlib

/-!
Shallow embedding of the non-resident attribute value reader
(`src/attribute_value/non_resident.rs` of the `ntfs` crate) and proofs of the
specification claims about it.

Machine integers are modelled as `Nat` (`u64`/`usize`) and `Int` (`i64`), with
explicit `% 2^64` wrapping and explicit checked-arithmetic guards exactly where
the source has them.  Stateful Rust methods taking `&mut self` become Lean
functions that always return the (possibly updated) state next to the result,
so that claims about state on the error path are meaningful.
-/

namespace NtfsProof

/-- Wrapping of an unbounded natural to the `u64` range, used where the source
performs an unchecked `u64` addition. -/
def wrap64 (n : Nat) : Nat := n % 2 ^ 64

/-- Checked `u64` addition (`u64::checked_add`). -/
def checkedAdd64 (a b : Nat) : Option Nat :=
  if a + b < 2 ^ 64 then some (a + b) else none

/-- Checked `u64` multiplication (`u64::checked_mul`). -/
def checkedMul64 (a b : Nat) : Option Nat :=
  if a * b < 2 ^ 64 then some (a * b) else none

/-- Checked `u64` subtraction (`u64::checked_sub`). -/
def checkedSub64 (a b : Nat) : Option Nat :=
  if b ≤ a then some (a - b) else none

/-- Checked `i64` addition (`i64::checked_add`). -/
def checkedAddI64 (a b : Int) : Option Int :=
  if -(2 ^ 63) ≤ a + b ∧ a + b < 2 ^ 63 then some (a + b) else none

/-- Conversion `i64::try_from(u64)` (`Ok` iff the value fits in `i64`). -/
def i64TryFromU64 (n : Nat) : Option Int :=
  if n < 2 ^ 63 then some (n : Int) else none

/-- Reinterpretation of a `u64` bit pattern as an `i64`. -/
def i64OfU64 (u : Nat) : Int :=
  if u < 2 ^ 63 then (u : Int) else (u : Int) - 2 ^ 64

/-- Reinterpretation of an `i64` as a `u64` bit pattern. -/
def u64OfI64 (v : Int) : Nat := (v % (2 ^ 64)).toNat

/-- Rust `i64::wrapping_shl`: the shift amount is taken modulo 64. -/
def wrappingShl64 (v : Int) (n : Nat) : Int :=
  i64OfU64 (u64OfI64 v * 2 ^ (n % 64) % 2 ^ 64)

/-- Rust `i64::wrapping_shr` (arithmetic shift): floor division by a power of
two, shift amount taken modulo 64. -/
def wrappingShr64 (v : Int) (n : Nat) : Int :=
  Int.fdiv v (2 ^ (n % 64))

/-- Rust `(n.wrapping_neg() as u64)` for an `i64` value `n`. -/
def wrappingNegAsU64 (n : Int) : Nat := ((-n) % (2 ^ 64)).toNat

/-- Kind of `std::io` error wrapped into `NtfsError::Io`. -/
inductive IoErrKind where
  | UnexpectedEof
  | InvalidInput
  deriving Repr, DecidableEq

/-- The error variants of `NtfsError` reachable from this module. -/
inductive NtfsError where
  | InvalidByteCountInDataRunHeader (position : Nat) (expected : Nat) (actual : Nat)
  | InvalidVcnInDataRunHeader (position : Nat) (vcn : Int) (previousLcn : Int)
  | InvalidClusterCount (clusterCount : Nat)
  | LcnTooBig (lcn : Int)
  | IoErr (kind : IoErrKind)
  deriving Repr, DecidableEq

/-- Boolean success test for an `Except` result. -/
def exceptIsOk {ε α : Type} : Except ε α → Bool
  | Except.ok _ => true
  | Except.error _ => false

instance {ε α : Type} [DecidableEq ε] [DecidableEq α] : DecidableEq (Except ε α) := by
  intro a b
  cases a with
  | ok x =>
    cases b with
    | ok y => exact decidable_of_iff (x = y) (by constructor <;> (intro h; simp_all))
    | error f => exact Decidable.isFalse (by simp)
  | error e =>
    cases b with
    | ok y => exact Decidable.isFalse (by simp)
    | error f => exact decidable_of_iff (e = f) (by constructor <;> (intro h; simp_all))

/-- The `binread::io::Cursor` created inside `NtfsDataRuns::next` over
`&self.data[self.state.offset..]`: the still-unread bytes plus the number of
bytes consumed so far (`stream_position`). -/
structure RCursor where
  remaining : List Nat
  consumed : Nat
  deriving Repr, DecidableEq

/-- Cursor `read_exact` into a `byte_count`-byte buffer: fails with an I/O
error when fewer than `byte_count` bytes remain. -/
def RCursor.readExact (c : RCursor) (byteCount : Nat) :
    Except NtfsError (List Nat × RCursor) :=
  if byteCount ≤ c.remaining.length then
    Except.ok (c.remaining.take byteCount,
      ⟨c.remaining.drop byteCount, c.consumed + byteCount⟩)
  else
    Except.error (NtfsError.IoErr IoErrKind.UnexpectedEof)

/-- Little-endian interpretation of a byte list (`u64::from_le_bytes` on the
8-byte buffer). -/
def u64FromLeBytes (l : List Nat) : Nat :=
  l.foldr (fun b acc => b + 256 * acc) 0

/-- The external filesystem collaborator: only `cluster_size` is consumed by
this module. -/
structure Ntfs where
  clusterSize : Nat
  deriving Repr, DecidableEq

/-- Modelled from the spec: `Lcn::position` / the collaborator
`absolute_byte_offset(lcn)` live outside `src/`.  Per the spec, an LCN is an
absolute cluster index convertible to the absolute byte offset
`lcn * cluster_size` (volume-base-relative, base 0), zero designating a sparse
run; a negative LCN or an offset beyond the `u64` range is not convertible and
is a `LcnTooBig` error. -/
def lcnPosition (ntfs : Ntfs) (lcn : Int) : Except NtfsError Nat :=
  if lcn < 0 then
    Except.error (NtfsError.LcnTooBig lcn)
  else if lcn.toNat * ntfs.clusterSize < 2 ^ 64 then
    Except.ok (lcn.toNat * ntfs.clusterSize)
  else
    Except.error (NtfsError.LcnTooBig lcn)

/-- A single NTFS Data Run (`NtfsDataRun`): a continuous cluster range.
`position = 0` designates a sparse Data Run. -/
structure NtfsDataRun where
  position : Nat
  allocatedSize : Nat
  streamPosition : Nat
  deriving Repr, DecidableEq

/-- Constructor `NtfsDataRun::new`: converts the LCN to an absolute byte
position and computes the allocated size with a checked multiplication. -/
def NtfsDataRun.new (ntfs : Ntfs) (lcn : Int) (clusterCount : Nat) :
    Except NtfsError NtfsDataRun :=
  match lcnPosition ntfs lcn with
  | Except.error e => Except.error e
  | Except.ok position =>
    match checkedMul64 clusterCount ntfs.clusterSize with
    | none => Except.error (NtfsError.InvalidClusterCount clusterCount)
    | some allocatedSize => Except.ok ⟨position, allocatedSize, 0⟩

/-- Method `NtfsDataRun::remaining_len` (`saturating_sub` is `Nat`
subtraction). -/
def NtfsDataRun.remainingLen (r : NtfsDataRun) : Nat :=
  r.allocatedSize - r.streamPosition

/-- Method `NtfsDataRun::data_position`. -/
def NtfsDataRun.dataPosition (r : NtfsDataRun) : Option Nat :=
  if 0 < r.position ∧ r.streamPosition ≤ r.allocatedSize then
    some (wrap64 (r.position + r.streamPosition))
  else
    none

/-- The decoder cursor state `DataRunsState`. -/
structure DataRunsState where
  offset : Nat
  previousLcn : Int
  deriving Repr, DecidableEq

/-- The Data Run decoder `NtfsDataRuns`. -/
structure NtfsDataRuns where
  ntfs : Ntfs
  data : List Nat
  position : Nat
  state : DataRunsState
  deriving Repr, DecidableEq

/-- Constructor `NtfsDataRuns::new`. -/
def NtfsDataRuns.new (ntfs : Ntfs) (data : List Nat) (position : Nat) :
    NtfsDataRuns :=
  ⟨ntfs, data, position, ⟨0, 0⟩⟩

/-- Method `NtfsDataRuns::position`: absolute position of the current Data Run
header. -/
def NtfsDataRuns.curPosition (r : NtfsDataRuns) : Nat :=
  wrap64 (r.position + r.state.offset)

/-- Method `NtfsDataRuns::read_variable_length_bytes`: reads `byte_count`
(at most 8) bytes into a zero-initialized 8-byte buffer. -/
def NtfsDataRuns.readVariableLengthBytes (r : NtfsDataRuns) (cursor : RCursor)
    (byteCount : Nat) : Except NtfsError (List Nat × RCursor) :=
  if byteCount > 8 then
    Except.error (NtfsError.InvalidByteCountInDataRunHeader r.curPosition byteCount 8)
  else
    match cursor.readExact byteCount with
    | Except.error e => Except.error e
    | Except.ok (bytes, cursor') =>
      Except.ok (bytes ++ List.replicate (8 - byteCount) 0, cursor')

/-- Method `NtfsDataRuns::read_variable_length_signed_integer`: little-endian
interpretation followed by the wrapping shift pair that sign-extends the
`byte_count`-byte field. -/
def NtfsDataRuns.readVariableLengthSignedInteger (r : NtfsDataRuns)
    (cursor : RCursor) (byteCount : Nat) : Except NtfsError (Int × RCursor) :=
  match r.readVariableLengthBytes cursor byteCount with
  | Except.error e => Except.error e
  | Except.ok (buf, cursor') =>
    let integer := i64OfU64 (u64FromLeBytes buf)
    let unusedBits := (8 - byteCount) * 8
    Except.ok (wrappingShr64 (wrappingShl64 integer unusedBits) unusedBits, cursor')

/-- Method `NtfsDataRuns::read_variable_length_unsigned_integer`. -/
def NtfsDataRuns.readVariableLengthUnsignedInteger (r : NtfsDataRuns)
    (cursor : RCursor) (byteCount : Nat) : Except NtfsError (Nat × RCursor) :=
  match r.readVariableLengthBytes cursor byteCount with
  | Except.error e => Except.error e
  | Except.ok (buf, cursor') => Except.ok (u64FromLeBytes buf, cursor')

/-- The body of `<NtfsDataRuns as Iterator>::next` after the fast-path bounds
check, split out so that each `iter_try!` early return carries the state
mutations performed up to that point. -/
def NtfsDataRuns.nextBody (r : NtfsDataRuns) (header : Nat) (rest : List Nat) :
    Option (Except NtfsError NtfsDataRun) × NtfsDataRuns :=
  -- A zero byte marks the end of the data runs.
  if header = 0 then
    (none, { r with state := { r.state with offset := r.data.length } })
  else
    -- Cursor after `u8::read` consumed the header byte.
    let cursor : RCursor := ⟨rest, 1⟩
    -- The lower nibble: length of the cluster count variable length integer.
    let clusterCountByteCount := header % 16
    match r.readVariableLengthUnsignedInteger cursor clusterCountByteCount with
    | Except.error e => (some (Except.error e), r)
    | Except.ok (clusterCount, cursor) =>
      -- The upper nibble: length of the VCN variable length integer.
      let vcnByteCount := header / 16
      match r.readVariableLengthSignedInteger cursor vcnByteCount with
      | Except.error e => (some (Except.error e), r)
      | Except.ok (vcn, cursor) =>
        -- Turn the read VCN into an absolute LCN.
        match checkedAddI64 r.state.previousLcn vcn with
        | none =>
          (some (Except.error (NtfsError.InvalidVcnInDataRunHeader
            r.curPosition vcn r.state.previousLcn)), r)
        | some lcn =>
          let r := { r with state := { r.state with previousLcn := lcn } }
          -- Only advance after having checked for success (of the LCN sum).
          let bytesToAdvance := cursor.consumed
          let r := { r with state :=
            { r.state with offset := r.state.offset + bytesToAdvance } }
          match NtfsDataRun.new r.ntfs lcn clusterCount with
          | Except.error e => (some (Except.error e), r)
          | Except.ok dataRun => (some (Except.ok dataRun), r)

/-- Method `<NtfsDataRuns as Iterator>::next`. -/
def NtfsDataRuns.next (r : NtfsDataRuns) :
    Option (Except NtfsError NtfsDataRun) × NtfsDataRuns :=
  if r.data.length ≤ r.state.offset then
    (none, r)
  else
    -- Read the single header byte from a cursor over `data[offset..]`;
    -- the empty case is unreachable because the offset is in bounds.
    match r.data.drop r.state.offset with
    | [] => (some (Except.error (NtfsError.IoErr IoErrKind.UnexpectedEof)), r)
    | header :: rest => r.nextBody header rest

/-- The three request kinds of the stream contract (`binread::io::SeekFrom`).
`Start` carries a `u64`, the other two an `i64`. -/
inductive SeekFrom where
  | Start (n : Nat)
  | End (n : Int)
  | Current (n : Int)
  deriving Repr, DecidableEq

/-- Environment model of the external byte source (`T: Read + Seek`): a byte
store plus a seek position.  Reads always deliver the requested number of
bytes and never fail; `ops` counts the operations issued, so that "never
touches the source" is observable. -/
structure Disk where
  content : List Nat
  pos : Nat
  ops : Nat
  deriving Repr, DecidableEq

/-- Seek of the external byte source to an absolute position. -/
def Disk.seek (d : Disk) (n : Nat) : Disk :=
  { d with pos := n, ops := d.ops + 1 }

/-- Read of `n` bytes from the external byte source at its current position. -/
def Disk.read (d : Disk) (n : Nat) : List Nat × Disk :=
  ((List.range n).map (fun i => d.content.getD (d.pos + i) 0),
    { d with pos := d.pos + n, ops := d.ops + 1 })

/-- Modelled from the spec: `seek_contiguous` lives in the parent module
`attribute_value`, which is not under `src/`.  Per the spec, a Data Run seek is
"purely local; no I/O", it "interprets a start-relative or current-relative
target against `allocated_size`; a negative or out-of-range resultant offset
is an error".  Returns the resulting offset. -/
def seekContiguous (streamPosition : Nat) (length : Nat) (pos : SeekFrom) :
    Except NtfsError Nat :=
  let resultant : Int :=
    match pos with
    | SeekFrom.Start n => (n : Int)
    | SeekFrom.End n => (length : Int) + n
    | SeekFrom.Current n => (streamPosition : Int) + n
  if 0 ≤ resultant ∧ resultant ≤ (length : Int) then
    Except.ok resultant.toNat
  else
    Except.error (NtfsError.IoErr IoErrKind.InvalidInput)

/-- Method `NtfsDataRun::read`: zero-fill for a sparse run, otherwise position
the source at the current data position and read; advances the local stream
position by the bytes actually transferred.  The buffer argument is the slice
handed in by the caller; the updated slice contents are returned. -/
def NtfsDataRun.read (run : NtfsDataRun) (disk : Disk) (buf : List Nat) :
    Except NtfsError (Nat × NtfsDataRun × List Nat × Disk) :=
  if run.remainingLen = 0 then
    Except.ok (0, run, buf, disk)
  else
    let bytesToRead := min buf.length run.remainingLen
    if run.position = 0 then
      -- This is a sparse Data Run: `work_slice.fill(0)`.
      let buf' := List.replicate bytesToRead 0 ++ buf.drop bytesToRead
      Except.ok (bytesToRead,
        { run with streamPosition := wrap64 (run.streamPosition + bytesToRead) },
        buf', disk)
    else
      match run.dataPosition with
      | none =>
        -- `data_position().unwrap()`: unreachable, the guards above ensure
        -- a valid data position.
        Except.error (NtfsError.IoErr IoErrKind.InvalidInput)
      | some dp =>
        let disk1 := disk.seek dp
        let (content, disk2) := disk1.read bytesToRead
        let buf' := content ++ buf.drop bytesToRead
        Except.ok (bytesToRead,
          { run with streamPosition := wrap64 (run.streamPosition + bytesToRead) },
          buf', disk2)

/-- Method `NtfsDataRun::seek`: delegates to `seek_contiguous` on the local
stream position against the allocated size. -/
def NtfsDataRun.seek (run : NtfsDataRun) (pos : SeekFrom) :
    Except NtfsError (Nat × NtfsDataRun) :=
  match seekContiguous run.streamPosition run.allocatedSize pos with
  | Except.error e => Except.error e
  | Except.ok n => Except.ok (n, { run with streamPosition := n })

/-- The `StreamState` coordinating the current Data Run, the logical stream
position and the declared used size. -/
structure StreamState where
  streamDataRun : Option NtfsDataRun
  streamPosition : Nat
  dataSize : Nat
  deriving Repr, DecidableEq

/-- Constructor `StreamState::new`. -/
def StreamState.new (dataSize : Nat) : StreamState :=
  ⟨none, 0, dataSize⟩

/-- Method `StreamState::data_position`. -/
def StreamState.dataPosition (s : StreamState) : Option Nat :=
  match s.streamDataRun with
  | none => none
  | some run => run.dataPosition

/-- Method `StreamState::simplify_seek`: reduces any request to
`Start (n ≥ 0)` or `Current (n ≥ 0)`; a resultant negative or overflowing
position is an input error. -/
def StreamState.simplifySeek (s : StreamState) (pos : SeekFrom) (dataSize : Nat) :
    Except NtfsError SeekFrom :=
  match pos with
  | SeekFrom.Start n => Except.ok (SeekFrom.Start n)
  | SeekFrom.End n =>
    if 0 ≤ n then
      match checkedAdd64 dataSize n.toNat with
      | some bytesToSeek => Except.ok (SeekFrom.Start bytesToSeek)
      | none => Except.error (NtfsError.IoErr IoErrKind.InvalidInput)
    else
      match checkedSub64 dataSize (wrappingNegAsU64 n) with
      | some bytesToSeek => Except.ok (SeekFrom.Start bytesToSeek)
      | none => Except.error (NtfsError.IoErr IoErrKind.InvalidInput)
  | SeekFrom.Current n =>
    if 0 ≤ n then
      match checkedAdd64 s.streamPosition n.toNat with
      | some _ => Except.ok (SeekFrom.Current n)
      | none => Except.error (NtfsError.IoErr IoErrKind.InvalidInput)
    else
      match checkedSub64 s.streamPosition (wrappingNegAsU64 n) with
      | some bytesToSeek => Except.ok (SeekFrom.Start bytesToSeek)
      | none => Except.error (NtfsError.IoErr IoErrKind.InvalidInput)

/-- Method `StreamState::optimize_seek`: a `Start n` target at or past the
current stream position is rewritten into the equivalent non-negative
`Current` request when the distance fits an `i64`. -/
def StreamState.optimizeSeek (s : StreamState) (pos : SeekFrom) (dataSize : Nat) :
    Except NtfsError SeekFrom :=
  match s.simplifySeek pos dataSize with
  | Except.error e => Except.error e
  | Except.ok p =>
    match p with
    | SeekFrom.Start n =>
      match checkedSub64 n s.streamPosition with
      | some nFromCurrent =>
        match i64TryFromU64 nFromCurrent with
        | some signedNFromCurrent => Except.ok (SeekFrom.Current signedNFromCurrent)
        | none => Except.ok (SeekFrom.Start n)
      | none => Except.ok (SeekFrom.Start n)
    | other => Except.ok other

/-- Method `StreamState::read_data_run`: reads from the current Data Run into
`buf[bytes_read ..]`, clamped by both the remaining buffer space and the
remaining (used) data size.  Returns whether bytes were read, next to the
updated state, buffer, source and running byte count. -/
def StreamState.readDataRun (s : StreamState) (disk : Disk) (buf : List Nat)
    (bytesRead : Nat) :
    (Except NtfsError Bool) × StreamState × List Nat × Disk × Nat :=
  match s.streamDataRun with
  | none => (Except.ok false, s, buf, disk, bytesRead)
  | some dataRun =>
    -- Have we already seeked past the size of the Data Run?
    if dataRun.allocatedSize ≤ dataRun.streamPosition then
      (Except.ok false, s, buf, disk, bytesRead)
    else
      -- We also must not read past the (used) data size of the entire value.
      let remainingDataSize := s.dataSize - s.streamPosition
      if remainingDataSize = 0 then
        (Except.ok false, s, buf, disk, bytesRead)
      else
        let start := bytesRead
        let remainingBufLen := buf.length - start
        let endPos := start + min remainingBufLen remainingDataSize
        let slice := (buf.take endPos).drop start
        match dataRun.read disk slice with
        | Except.error e => (Except.error e, s, buf, disk, bytesRead)
        | Except.ok (k, run', slice', disk') =>
          (Except.ok true,
            { s with
                streamDataRun := some run',
                streamPosition := wrap64 (s.streamPosition + k) },
            buf.take start ++ slice' ++ buf.drop endPos, disk', bytesRead + k)

/-- Method `StreamState::seek_data_run`: resolves the remaining distance
against the current Data Run, or subtracts the run's remaining length. -/
def StreamState.seekDataRun (s : StreamState) (bytesToSeek : SeekFrom)
    (bytesLeftToSeek : Nat) : (Except NtfsError Bool) × StreamState × Nat :=
  match s.streamDataRun with
  | none => (Except.ok false, s, bytesLeftToSeek)
  | some dataRun =>
    if bytesLeftToSeek < dataRun.remainingLen then
      let pos :=
        match bytesToSeek with
        | SeekFrom.Start _ => SeekFrom.Start bytesLeftToSeek
        | SeekFrom.Current _ => SeekFrom.Current (i64OfU64 (wrap64 bytesLeftToSeek))
        | SeekFrom.End _ => SeekFrom.Start 0  -- `unreachable!()` in the source
      match dataRun.seek pos with
      | Except.error e => (Except.error e, s, bytesLeftToSeek)
      | Except.ok (_, run') =>
        (Except.ok true, { s with streamDataRun := some run' }, bytesLeftToSeek)
    else
      (Except.ok false, s, bytesLeftToSeek - dataRun.remainingLen)

/-- The reader `NtfsNonResidentAttributeValue`. -/
structure Value where
  ntfs : Ntfs
  data : List Nat
  position : Nat
  streamDataRuns : NtfsDataRuns
  streamState : StreamState
  deriving Repr, DecidableEq

/-- Method `NtfsNonResidentAttributeValue::len`. -/
def Value.len (v : Value) : Nat := v.streamState.dataSize

/-- Method `NtfsNonResidentAttributeValue::data_runs`: a fresh, restartable
run sequence over the same buffer and position. -/
def Value.dataRuns (v : Value) : NtfsDataRuns :=
  NtfsDataRuns.new v.ntfs v.data v.position

/-- Constructor `NtfsNonResidentAttributeValue::new`: eagerly pulls the first
Data Run. -/
def Value.new (ntfs : Ntfs) (data : List Nat) (position : Nat) (dataSize : Nat) :
    Except NtfsError Value :=
  let runs := NtfsDataRuns.new ntfs data position
  let state := StreamState.new dataSize
  match runs.next with
  | (none, runs') => Except.ok ⟨ntfs, data, position, runs', state⟩
  | (some (Except.error e), _) => Except.error e
  | (some (Except.ok run), runs') =>
    Except.ok ⟨ntfs, data, position, runs', { state with streamDataRun := some run }⟩

/-- Method `NtfsNonResidentAttributeValue::next_data_run`: pulls the next Data
Run from the decoder into the stream state. -/
def Value.nextDataRun (v : Value) : (Except NtfsError Bool) × Value :=
  match v.streamDataRuns.next with
  | (none, runs') => (Except.ok false, { v with streamDataRuns := runs' })
  | (some (Except.error e), runs') =>
    (Except.error e, { v with streamDataRuns := runs' })
  | (some (Except.ok run), runs') =>
    (Except.ok true, { v with
        streamDataRuns := runs',
        streamState := { v.streamState with streamDataRun := some run } })

/-- The `while bytes_read < buf.len()` loop of
`NtfsNonResidentAttributeValue::read`, with explicit fuel.  Every iteration
either increases `bytes_read` or advances the decoder offset, so the fuel
chosen in `Value.read` is never exhausted. -/
def Value.readLoop : Nat → Value → Disk → List Nat → Nat →
    (Except NtfsError Nat) × Value × List Nat × Disk
  | 0, v, disk, buf, bytesRead => (Except.ok bytesRead, v, buf, disk)
  | Nat.succ fuel, v, disk, buf, bytesRead =>
    if bytesRead < buf.length then
      match v.streamState.readDataRun disk buf bytesRead with
      | (Except.error e, s', buf', disk', _) =>
        (Except.error e, { v with streamState := s' }, buf', disk')
      | (Except.ok true, s', buf', disk', br') =>
        Value.readLoop fuel { v with streamState := s' } disk' buf' br'
      | (Except.ok false, s', buf', disk', br') =>
        match Value.nextDataRun { v with streamState := s' } with
        | (Except.error e, v') => (Except.error e, v', buf', disk')
        | (Except.ok true, v') => Value.readLoop fuel v' disk' buf' br'
        | (Except.ok false, v') => (Except.ok br', v', buf', disk')
    else
      (Except.ok bytesRead, v, buf, disk)

/-- Method `NtfsNonResidentAttributeValue::read`. -/
def Value.read (v : Value) (disk : Disk) (buf : List Nat) :
    (Except NtfsError Nat) × Value × List Nat × Disk :=
  Value.readLoop (buf.length + v.streamDataRuns.data.length + 1) v disk buf 0

/-- The `while bytes_left_to_seek > 0` loop of
`NtfsNonResidentAttributeValue::seek`, with explicit fuel.  Every continuing
iteration pulls a run and advances the decoder offset, so the fuel chosen in
`Value.seek` is never exhausted. -/
def Value.seekLoop : Nat → Value → Disk → SeekFrom → Nat →
    (Except NtfsError Unit) × Value × Disk
  | 0, v, disk, _, _ => (Except.ok (), v, disk)
  | Nat.succ fuel, v, disk, pos, bytesLeft =>
    if bytesLeft = 0 then
      (Except.ok (), v, disk)
    else
      match v.streamState.seekDataRun pos bytesLeft with
      | (Except.error e, s', _) => (Except.error e, { v with streamState := s' }, disk)
      | (Except.ok true, s', _) => (Except.ok (), { v with streamState := s' }, disk)
      | (Except.ok false, s', bl') =>
        match Value.nextDataRun { v with streamState := s' } with
        | (Except.error e, v') => (Except.error e, v', disk)
        | (Except.ok true, v') => Value.seekLoop fuel v' disk pos bl'
        | (Except.ok false, v') => (Except.ok (), v', disk)

/-- The tail of `NtfsNonResidentAttributeValue::seek` after normalization:
the seek loop followed by the final `set_stream_position` assignment and the
return of the resulting position. -/
def Value.seekTail (v1 : Value) (disk : Disk) (posOpt : SeekFrom) (bytesLeft : Nat) :
    (Except NtfsError Nat) × Value × Disk :=
  match Value.seekLoop (v1.streamDataRuns.data.length + 1) v1 disk posOpt bytesLeft with
  | (Except.error e, v2, disk2) => (Except.error e, v2, disk2)
  | (Except.ok _, v2, disk2) =>
    let finalPos :=
      match posOpt with
      | SeekFrom.Start n => n
      | SeekFrom.Current n => wrap64 (v2.streamState.streamPosition + u64OfI64 n)
      | SeekFrom.End _ => v2.streamState.streamPosition  -- unreachable
    let v3 := { v2 with streamState :=
      { v2.streamState with streamPosition := finalPos } }
    (Except.ok v3.streamState.streamPosition, v3, disk2)

/-- Method `NtfsNonResidentAttributeValue::seek`.  The `End` and negative
`Current` shapes after `optimize_seek` are `unreachable!()` in the source. -/
def Value.seek (v : Value) (disk : Disk) (pos : SeekFrom) :
    (Except NtfsError Nat) × Value × Disk :=
  match v.streamState.optimizeSeek pos v.len with
  | Except.error e => (Except.error e, v, disk)
  | Except.ok (SeekFrom.Start n) =>
    -- Rewind to the very beginning.
    Value.seekTail { v with
        streamDataRuns := v.dataRuns,
        streamState := StreamState.new v.len } disk (SeekFrom.Start n) n
  | Except.ok (SeekFrom.Current n) =>
    if 0 ≤ n then
      Value.seekTail v disk (SeekFrom.Current n) n.toNat
    else
      (Except.error (NtfsError.IoErr IoErrKind.InvalidInput), v, disk)
  | Except.ok (SeekFrom.End _) =>
    (Except.error (NtfsError.IoErr IoErrKind.InvalidInput), v, disk)

/-- Repeated `read` calls with a sequence of buffers, collecting the byte
counts returned by each call. -/
def Value.readSeq (v : Value) (disk : Disk) :
    List (List Nat) → (Except NtfsError (List Nat)) × Value × Disk
  | [] => (Except.ok [], v, disk)
  | buf :: bufs =>
    match v.read disk buf with
    | (Except.error e, v', _, disk') => (Except.error e, v', disk')
    | (Except.ok r, v', _, disk') =>
      match v'.readSeq disk' bufs with
      | (Except.error e, v'', disk'') => (Except.error e, v'', disk'')
      | (Except.ok rs, v'', disk'') => (Except.ok (r :: rs), v'', disk'')

/-- Decoding of all remaining Data Runs from the decoder's current cursor
state (fueled; each produced run advances the offset by at least one byte, so
the fuel chosen in `decodeRest` is never exhausted). -/
def decodeRestAux : Nat → NtfsDataRuns → Except NtfsError (List NtfsDataRun)
  | 0, _ => Except.ok []
  | Nat.succ fuel, r =>
    match r.next with
    | (none, _) => Except.ok []
    | (some (Except.error e), _) => Except.error e
    | (some (Except.ok run), r') =>
      match decodeRestAux fuel r' with
      | Except.error e => Except.error e
      | Except.ok rest => Except.ok (run :: rest)

/-- Decoding of all remaining Data Runs from the current cursor state. -/
def decodeRest (r : NtfsDataRuns) : Except NtfsError (List NtfsDataRun) :=
  decodeRestAux (r.data.length + 1 - r.state.offset) r

/-- Remaining length of the current Data Run of a stream state. -/
def curRem (s : StreamState) : Nat :=
  match s.streamDataRun with
  | none => 0
  | some run => run.remainingLen

/-- Sum of the allocated sizes of a list of Data Runs. -/
def sumAlloc (l : List NtfsDataRun) : Nat :=
  (l.map NtfsDataRun.allocatedSize).sum

/-- A stream state whose current Data Run (if any) has a `u64` allocated
size, as guaranteed by the source types. -/
def runAllocOk (s : StreamState) : Bool :=
  match s.streamDataRun with
  | none => true
  | some run => decide (run.allocatedSize < 2 ^ 64)

/-- Well-formedness of a reader state: the remaining run list decodes without
error, the declared sizes are within the `u64` range (as they are in the
source, where they are `u64` values), and the used data size is covered by the
remaining capacity (current run plus runs still to be decoded). -/
def streamWF (v : Value) : Bool :=
  match decodeRest v.streamDataRuns with
  | Except.error _ => false
  | Except.ok l =>
    decide (v.streamState.dataSize < 2 ^ 64) &&
    decide (v.streamState.dataSize ≤
      v.streamState.streamPosition + curRem v.streamState + sumAlloc l) &&
    runAllocOk v.streamState

/-- Seeking forward `n` bytes after restarting decode from the buffer's
beginning: the reference behaviour that `optimize_seek`'s rewrite must match
(this is the spec-side definition for the refinement claim, mirroring the
non-optimized `SeekFrom::Start` path of `seek`). -/
def Value.seekFromScratch (v : Value) (disk : Disk) (n : Nat) :
    (Except NtfsError Nat) × Value × Disk :=
  Value.seekTail { v with
      streamDataRuns := v.dataRuns,
      streamState := StreamState.new v.len } disk (SeekFrom.Start n) n

/-! ### Helper definitions for the claims -/

/-- One decoder step, keeping only the successor state. -/
def advanceRuns (r : NtfsDataRuns) : NtfsDataRuns := (NtfsDataRuns.next r).2

/-- Validity of a seek request's payload as a machine integer (`u64` for
`Start`, `i64` for the signed kinds), as guaranteed by the Rust types. -/
def seekFromValid (pos : SeekFrom) : Prop :=
  match pos with
  | SeekFrom.Start n => n < 2 ^ 64
  | SeekFrom.End n => -(2 ^ 63) ≤ n ∧ n < 2 ^ 63
  | SeekFrom.Current n => -(2 ^ 63) ≤ n ∧ n < 2 ^ 63

/-- A seek request whose resultant absolute logical position would be negative
or would overflow the `u64` range, relative to a current stream position and a
data size. -/
def resultantInvalid (streamPos dataSize : Nat) (pos : SeekFrom) : Prop :=
  match pos with
  | SeekFrom.Start _ => False
  | SeekFrom.End n => (dataSize : Int) + n < 0 ∨ 2 ^ 64 ≤ (dataSize : Int) + n
  | SeekFrom.Current n => (streamPos : Int) + n < 0 ∨ 2 ^ 64 ≤ (streamPos : Int) + n

/-! ### C1 -/

/-- C1 (code bug evidence): on the run-list buffer
`[0x08, 0, 0, 0, 0, 0, 0, 0, 0x80]` (cluster count `2^63`, VCN width 0) with
cluster size 512, `NtfsDataRuns::next` returns the allocated-size
multiplication overflow error `InvalidClusterCount`, yet the cursor offset has
already advanced from 0 to 9 (and `previous_lcn` has been re-assigned), so the
immediately repeated call returns `none` instead of the identical error —
contradicting the claim that decode errors leave the cursor state unchanged. -/
theorem c1_cluster_count_overflow_advances_cursor :
    (NtfsDataRuns.new ⟨512⟩ [0x08, 0, 0, 0, 0, 0, 0, 0, 0x80] 0).next.1 =
      some (Except.error (NtfsError.InvalidClusterCount (2 ^ 63))) ∧
    (NtfsDataRuns.new ⟨512⟩ [0x08, 0, 0, 0, 0, 0, 0, 0, 0x80] 0).state.offset = 0 ∧
    (NtfsDataRuns.new ⟨512⟩ [0x08, 0, 0, 0, 0, 0, 0, 0, 0x80] 0).next.2.state.offset = 9 ∧
    (NtfsDataRuns.new ⟨512⟩ [0x08, 0, 0, 0, 0, 0, 0, 0, 0x80] 0).next.2.next.1 = none := by
  decide

/-! ### C6 -/

/-- C6: decoding `[0x21, 0x10, 0x05, 0x00]` with cluster size 512 and initial
previous-LCN 0 yields exactly one Data Run with
`position = absolute_byte_offset(5) = 5 * 512` and
`allocated_size = 16 * 512 = 8192`, after which the sequence terminates (the
following call yields no further run). -/
theorem c6_concrete_run_decode :
    (NtfsDataRuns.new ⟨512⟩ [0x21, 0x10, 0x05, 0x00] 0).next.1 =
      some (Except.ok ⟨5 * 512, 16 * 512, 0⟩) ∧
    lcnPosition ⟨512⟩ 5 = Except.ok (5 * 512) ∧
    (NtfsDataRuns.new ⟨512⟩ [0x21, 0x10, 0x05, 0x00] 0).next.2.state.previousLcn = 5 ∧
    (NtfsDataRuns.new ⟨512⟩ [0x21, 0x10, 0x05, 0x00] 0).next.2.next.1 = none := by
  decide

/-! ### C7 -/

/-- Once the decoder offset is at or past the buffer length, `next` yields
nothing and leaves the state untouched. -/
theorem next_of_terminated (s : NtfsDataRuns) (hs : s.data.length ≤ s.state.offset) :
    NtfsDataRuns.next s = (none, s) := by
  simp [NtfsDataRuns.next, hs]

/-- C7: a zero header byte yields no run even though further bytes remain, and
forces the cursor offset to the buffer length; from any terminated state
(offset at or past the buffer length) `next` is the identity returning `none`,
so every subsequent call — any number of steps later — yields no run. -/
theorem c7_zero_header_terminates (r : NtfsDataRuns)
    (h : r.state.offset < r.data.length)
    (h0 : r.data[r.state.offset]? = some 0) :
    NtfsDataRuns.next r =
      (none, { r with state := { r.state with offset := r.data.length } }) ∧
    (∀ s : NtfsDataRuns, s.data.length ≤ s.state.offset →
      NtfsDataRuns.next s = (none, s)) ∧
    (∀ k : Nat, (NtfsDataRuns.next (advanceRuns^[k] (NtfsDataRuns.next r).2)).1 = none) := by
  have hget : r.data[r.state.offset] = 0 := by
    have := List.getElem?_eq_some.mp h0
    exact this.elim (fun hh hv => hv)
  have hdrop : r.data.drop r.state.offset =
      0 :: r.data.drop (r.state.offset + 1) := by
    rw [List.drop_eq_getElem_cons h, hget]
  have hfirst : NtfsDataRuns.next r =
      (none, { r with state := { r.state with offset := r.data.length } }) := by
    simp [NtfsDataRuns.next, Nat.not_le.mpr h, hdrop, NtfsDataRuns.nextBody]
  refine ⟨hfirst, fun s hs => next_of_terminated s hs, ?_⟩
  have hfix : ∀ k : Nat, advanceRuns^[k] (NtfsDataRuns.next r).2 =
      (NtfsDataRuns.next r).2 := by
    intro k
    induction k with
    | zero => rfl
    | succ k ih =>
      rw [Function.iterate_succ_apply', ih]
      show (NtfsDataRuns.next (NtfsDataRuns.next r).2).2 = (NtfsDataRuns.next r).2
      rw [next_of_terminated _ (by rw [hfirst])]
  intro k
  rw [hfix k, hfirst, next_of_terminated _ (by simp)]

/-! ### C8 -/

/-- A seek request with an invalid resultant position is rejected by
`simplify_seek` with the invalid-input I/O error. -/
theorem simplifySeek_invalid (s : StreamState) (pos : SeekFrom) (dataSize : Nat)
    (hpos : s.streamPosition < 2 ^ 64) (hds : dataSize < 2 ^ 64)
    (hval : seekFromValid pos)
    (hinv : resultantInvalid s.streamPosition dataSize pos) :
    s.simplifySeek pos dataSize = Except.error (NtfsError.IoErr IoErrKind.InvalidInput) := by
  cases pos with
  | Start n => exact absurd hinv (by simp [resultantInvalid])
  | End n =>
    simp only [resultantInvalid] at hinv
    simp only [StreamState.simplifySeek]
    by_cases hn : 0 ≤ n
    · have hc : checkedAdd64 dataSize n.toNat = none := by
        unfold checkedAdd64
        rw [if_neg]
        have h1 : ((n.toNat : Nat) : Int) = n := Int.toNat_of_nonneg hn
        rcases hinv with h | h
        · omega
        · intro hlt
          have : ((dataSize + n.toNat : Nat) : Int) < ((2 ^ 64 : Nat) : Int) := by
            exact_mod_cast hlt
          push_cast at this
          omega
      simp [hn, hc]
    · have hneg : wrappingNegAsU64 n = (-n).toNat := by
        have h1 : (0 : Int) ≤ -n := by omega
        have h2 : -n < 2 ^ 64 := by
          rcases hval with ⟨hv1, _⟩
          omega
        unfold wrappingNegAsU64
        rw [Int.emod_eq_of_lt h1 h2]
      have hc : checkedSub64 dataSize (wrappingNegAsU64 n) = none := by
        unfold checkedSub64
        rw [hneg, if_neg]
        rcases hinv with h | h
        · intro hle
          have : ((-n).toNat : Int) ≤ (dataSize : Int) := by exact_mod_cast hle
          rw [Int.toNat_of_nonneg (by omega : (0:Int) ≤ -n)] at this
          omega
        · omega
      simp [hn, hc]
  | Current n =>
    simp only [resultantInvalid] at hinv
    simp only [StreamState.simplifySeek]
    by_cases hn : 0 ≤ n
    · have hc : checkedAdd64 s.streamPosition n.toNat = none := by
        unfold checkedAdd64
        rw [if_neg]
        have h1 : ((n.toNat : Nat) : Int) = n := Int.toNat_of_nonneg hn
        rcases hinv with h | h
        · omega
        · intro hlt
          have : ((s.streamPosition + n.toNat : Nat) : Int) < ((2 ^ 64 : Nat) : Int) := by
            exact_mod_cast hlt
          push_cast at this
          omega
      simp [hn, hc]
    · have hneg : wrappingNegAsU64 n = (-n).toNat := by
        have h1 : (0 : Int) ≤ -n := by omega
        have h2 : -n < 2 ^ 64 := by
          rcases hval with ⟨hv1, _⟩
          omega
        unfold wrappingNegAsU64
        rw [Int.emod_eq_of_lt h1 h2]
      have hc : checkedSub64 s.streamPosition (wrappingNegAsU64 n) = none := by
        unfold checkedSub64
        rw [hneg, if_neg]
        rcases hinv with h | h
        · intro hle
          have : ((-n).toNat : Int) ≤ (s.streamPosition : Int) := by exact_mod_cast hle
          rw [Int.toNat_of_nonneg (by omega : (0:Int) ≤ -n)] at this
          omega
        · omega
      simp [hn, hc]

/-- C8: a seek whose resultant absolute position would be negative or would
overflow fails with the invalid-seek error, and the reader state (stream
position included) and the source are returned exactly unchanged. -/
theorem c8_invalid_seek_rejected (v : Value) (disk : Disk) (pos : SeekFrom)
    (hpos : v.streamState.streamPosition < 2 ^ 64) (hds : v.len < 2 ^ 64)
    (hval : seekFromValid pos)
    (hinv : resultantInvalid v.streamState.streamPosition v.len pos) :
    v.seek disk pos = (Except.error (NtfsError.IoErr IoErrKind.InvalidInput), v, disk) := by
  have hsimp := simplifySeek_invalid v.streamState pos v.len hpos hds hval hinv
  simp [Value.seek, StreamState.optimizeSeek, hsimp]

/-- C7 witness: a buffer starting with a zero header byte followed by a
further byte; the first call terminates the sequence with the offset forced to
the buffer length, and calls five steps later still yield nothing. -/
theorem c7_zero_header_terminates_witness :
    NtfsDataRuns.next (NtfsDataRuns.new ⟨512⟩ [0, 33] 0) =
      (none, ⟨⟨512⟩, [0, 33], 0, ⟨2, 0⟩⟩) ∧
    (NtfsDataRuns.next
      (advanceRuns^[5] (NtfsDataRuns.next (NtfsDataRuns.new ⟨512⟩ [0, 33] 0)).2)).1 = none := by
  have h := c7_zero_header_terminates (NtfsDataRuns.new ⟨512⟩ [0, 33] 0)
    (by decide) (by decide)
  exact ⟨h.1, h.2.2 5⟩

/-- C8 witness: from stream position 0 with data size 100, seeking from-current
by -5 fails with the invalid-seek error and leaves reader and source
untouched. -/
theorem c8_invalid_seek_rejected_witness :
    Value.seek ⟨⟨512⟩, [], 0, NtfsDataRuns.new ⟨512⟩ [] 0, ⟨none, 0, 100⟩⟩ ⟨[], 0, 0⟩
      (SeekFrom.Current (-5)) =
    (Except.error (NtfsError.IoErr IoErrKind.InvalidInput),
      ⟨⟨512⟩, [], 0, NtfsDataRuns.new ⟨512⟩ [] 0, ⟨none, 0, 100⟩⟩, ⟨[], 0, 0⟩) :=
  c8_invalid_seek_rejected _ _ _ (by norm_num) (by norm_num [Value.len])
    ⟨by norm_num, by norm_num⟩ (Or.inl (by norm_num))

/-! ### C4 -/

/-- Mathematical sign extension of the `byte_count`-byte little-endian field
value `u` to a 64-bit signed integer: the two's-complement value of the
`8 * byte_count`-bit pattern (every unwritten bit a copy of the sign bit). -/
def signExtend (byteCount u : Nat) : Int :=
  if u < 2 ^ (8 * byteCount - 1) then (u : Int) else (u : Int) - 2 ^ (8 * byteCount)

/-- Unfolding of the little-endian interpretation on a cons cell. -/
theorem u64FromLeBytes_cons (b : Nat) (l : List Nat) :
    u64FromLeBytes (b :: l) = b + 256 * u64FromLeBytes l := rfl

/-- The little-endian interpretation of the empty byte list. -/
theorem u64FromLeBytes_nil : u64FromLeBytes [] = 0 := rfl

/-- Trailing zero bytes do not change the little-endian interpretation. -/
theorem u64FromLeBytes_append_replicate_zero (l : List Nat) (k : Nat) :
    u64FromLeBytes (l ++ List.replicate k 0) = u64FromLeBytes l := by
  induction l with
  | nil =>
    simp only [List.nil_append]
    induction k with
    | zero => rfl
    | succ k ih => simp [List.replicate, u64FromLeBytes_cons, ih, u64FromLeBytes_nil]
  | cons b l ih => simp [u64FromLeBytes_cons, ih]

/-- The little-endian interpretation of `n` bytes is below `2 ^ (8 * n)`. -/
theorem u64FromLeBytes_lt (l : List Nat) (h : ∀ b ∈ l, b < 256) :
    u64FromLeBytes l < 2 ^ (8 * l.length) := by
  induction l with
  | nil => simp [u64FromLeBytes]
  | cons b l ih =>
    have hb : b < 256 := h b (List.mem_cons_self b l)
    have hl : u64FromLeBytes l < 2 ^ (8 * l.length) :=
      ih (fun x hx => h x (List.mem_cons_of_mem b hx))
    have hp : 2 ^ (8 * (b :: l).length) = 256 * 2 ^ (8 * l.length) := by
      simp only [List.length_cons]
      rw [Nat.mul_add, Nat.mul_one, Nat.pow_add]
      ring
    rw [u64FromLeBytes_cons, hp]
    omega

/-- Reinterpreting a `u64` as `i64` and back is the identity. -/
theorem u64OfI64_i64OfU64 (u : Nat) (h : u < 2 ^ 64) : u64OfI64 (i64OfU64 u) = u := by
  unfold i64OfU64 u64OfI64
  by_cases hu : u < 2 ^ 63
  · rw [if_pos hu, Int.emod_eq_of_lt (by positivity) (by exact_mod_cast h)]
    exact Int.toNat_natCast u
  · rw [if_neg hu]
    have h2 : ((u : Int) - 2 ^ 64) % 2 ^ 64 = (u : Int) % 2 ^ 64 := Int.emod_sub_cancel _ _
    rw [h2, Int.emod_eq_of_lt (by positivity) (by exact_mod_cast h)]
    exact Int.toNat_natCast u

/-- The wrapping-shift pair of the source sign-extends a `w`-bit field
(`0 < w < 64`). -/
theorem shl_shr_sext (w : Nat) (hw1 : 0 < w) (hw2 : w < 64) (u : Nat) (hu : u < 2 ^ w) :
    wrappingShr64 (wrappingShl64 (i64OfU64 u) (64 - w)) (64 - w) =
      if u < 2 ^ (w - 1) then (u : Int) else (u : Int) - 2 ^ w := by
  have hmod : (64 - w) % 64 = 64 - w := Nat.mod_eq_of_lt (by omega)
  have hu63 : u < 2 ^ 63 :=
    lt_of_lt_of_le hu (Nat.pow_le_pow_right (by norm_num) (by omega))
  have hu64 : u < 2 ^ 64 := lt_trans hu63 (by norm_num)
  have hi : i64OfU64 u = (u : Int) := by unfold i64OfU64; rw [if_pos hu63]
  have hround : u64OfI64 ((u : Int)) = u := by
    rw [← hi]; exact u64OfI64_i64OfU64 u hu64
  have hpow : 2 ^ w * 2 ^ (64 - w) = 2 ^ 64 := by
    rw [← Nat.pow_add]; congr 1; omega
  have hposw : 0 < 2 ^ (64 - w) := Nat.pos_pow_of_pos _ (by norm_num)
  have hprodlt : u * 2 ^ (64 - w) < 2 ^ 64 := by
    calc u * 2 ^ (64 - w) < 2 ^ w * 2 ^ (64 - w) := (Nat.mul_lt_mul_right hposw).mpr hu
      _ = 2 ^ 64 := hpow
  have hmod2 : u * 2 ^ (64 - w) % 2 ^ 64 = u * 2 ^ (64 - w) := Nat.mod_eq_of_lt hprodlt
  unfold wrappingShl64 wrappingShr64
  rw [hmod, hi, hround, hmod2]
  have hhalf : 2 ^ (w - 1) * 2 ^ (64 - w) = 2 ^ 63 := by
    rw [← Nat.pow_add]; congr 1; omega
  by_cases htop : u < 2 ^ (w - 1)
  · have hlt63 : u * 2 ^ (64 - w) < 2 ^ 63 := by
      calc u * 2 ^ (64 - w) < 2 ^ (w - 1) * 2 ^ (64 - w) :=
            (Nat.mul_lt_mul_right hposw).mpr htop
        _ = 2 ^ 63 := hhalf
    have hcast : i64OfU64 (u * 2 ^ (64 - w)) = ((u * 2 ^ (64 - w) : Nat) : Int) := by
      unfold i64OfU64; rw [if_pos hlt63]
    rw [hcast, if_pos htop]
    push_cast
    exact Int.mul_fdiv_cancel _ (by positivity)
  · have hge63 : 2 ^ 63 ≤ u * 2 ^ (64 - w) := by
      calc (2 : Nat) ^ 63 = 2 ^ (w - 1) * 2 ^ (64 - w) := hhalf.symm
        _ ≤ u * 2 ^ (64 - w) := Nat.mul_le_mul_right _ (le_of_not_lt htop)
    have hcast : i64OfU64 (u * 2 ^ (64 - w)) =
        ((u * 2 ^ (64 - w) : Nat) : Int) - 2 ^ 64 := by
      unfold i64OfU64; rw [if_neg (not_lt.mpr hge63)]
    rw [hcast, if_neg htop]
    have hfact : ((u * 2 ^ (64 - w) : Nat) : Int) - 2 ^ 64 =
        ((u : Int) - 2 ^ w) * 2 ^ (64 - w) := by
      have hp : ((2 : Int) ^ w) * 2 ^ (64 - w) = 2 ^ 64 := by
        rw [← pow_add]; congr 1; omega
      have hcast2 : ((u * 2 ^ (64 - w) : Nat) : Int) = (u : Int) * 2 ^ (64 - w) := by
        push_cast; ring
      rw [hcast2, ← hp]; ring
    rw [hfact]
    exact Int.mul_fdiv_cancel _ (by positivity)

/-- C4: for `byte_count ≤ 8` with enough bytes under the cursor, the signed
variable-length decoder returns the little-endian `byte_count`-byte field
sign-extended to 64 bits (unwritten bits become copies of the field's sign
bit) and advances the cursor by `byte_count` bytes; for `byte_count > 8` both
the signed and the unsigned decoder fail with the oversized-field-width decode
error. -/
theorem c4_varint_signed_decode (r : NtfsDataRuns) (cursor : RCursor) (byteCount : Nat)
    (hbytes : cursor.remaining.all (fun b => decide (b < 256)) = true) :
    (byteCount ≤ 8 → byteCount ≤ cursor.remaining.length →
      r.readVariableLengthSignedInteger cursor byteCount =
        Except.ok (signExtend byteCount (u64FromLeBytes (cursor.remaining.take byteCount)),
          ⟨cursor.remaining.drop byteCount, cursor.consumed + byteCount⟩)) ∧
    (8 < byteCount →
      r.readVariableLengthSignedInteger cursor byteCount =
        Except.error (NtfsError.InvalidByteCountInDataRunHeader r.curPosition byteCount 8) ∧
      r.readVariableLengthUnsignedInteger cursor byteCount =
        Except.error (NtfsError.InvalidByteCountInDataRunHeader r.curPosition byteCount 8)) := by
  constructor
  · intro hle hlen
    have hrvlb : r.readVariableLengthBytes cursor byteCount =
        Except.ok (cursor.remaining.take byteCount ++ List.replicate (8 - byteCount) 0,
          ⟨cursor.remaining.drop byteCount, cursor.consumed + byteCount⟩) := by
      unfold NtfsDataRuns.readVariableLengthBytes RCursor.readExact
      rw [if_neg (by omega), if_pos hlen]
    have hu := u64FromLeBytes_append_replicate_zero
      (cursor.remaining.take byteCount) (8 - byteCount)
    have htakelen : (cursor.remaining.take byteCount).length = byteCount :=
      List.length_take_of_le hlen
    have hub : u64FromLeBytes (cursor.remaining.take byteCount) <
        2 ^ (8 * byteCount) := by
      have hall : ∀ b ∈ cursor.remaining.take byteCount, b < 256 := by
        intro b hb
        have hmem : b ∈ cursor.remaining := List.mem_of_mem_take hb
        have := List.all_eq_true.mp hbytes b hmem
        exact of_decide_eq_true this
      have := u64FromLeBytes_lt _ hall
      rwa [htakelen] at this
    set u := u64FromLeBytes (cursor.remaining.take byteCount) with hudef
    unfold NtfsDataRuns.readVariableLengthSignedInteger
    rw [hrvlb]
    simp only [hu]
    have hgoal : wrappingShr64 (wrappingShl64 (i64OfU64 u) ((8 - byteCount) * 8))
        ((8 - byteCount) * 8) = signExtend byteCount u := by
      rcases Nat.eq_or_lt_of_le hle with h8 | hlt8
      · -- byteCount = 8: the shift amount is 0, the reinterpretation itself
        -- is the 64-bit sign extension.
        subst h8
        have h0 : (8 - 8) * 8 = 0 := by norm_num
        rw [h0]
        unfold wrappingShl64 wrappingShr64
        have hu64 : u < 2 ^ 64 := by
          have : (8 : Nat) * 8 = 64 := by norm_num
          rwa [this] at hub
        rw [Nat.zero_mod, pow_zero, u64OfI64_i64OfU64 u hu64, Nat.mul_one,
          Nat.mod_eq_of_lt hu64]
        unfold i64OfU64 signExtend
        norm_num
      · rcases Nat.eq_zero_or_pos byteCount with h0 | hpos
        · -- byteCount = 0: the field is empty, the value is 0.
          subst h0
          have hu0 : u = 0 := by
            have : u < 2 ^ (8 * 0) := hub
            simpa using this
          rw [hu0]
          unfold wrappingShl64 wrappingShr64 i64OfU64 u64OfI64 signExtend
          norm_num
        · -- 1 ≤ byteCount ≤ 7: the generic shift pair lemma applies.
          have hw1 : 0 < 8 * byteCount := by omega
          have hw2 : 8 * byteCount < 64 := by omega
          have harith : (8 - byteCount) * 8 = 64 - 8 * byteCount := by omega
          rw [harith]
          rw [shl_shr_sext (8 * byteCount) hw1 hw2 u hub]
          unfold signExtend
          rfl
    rw [hgoal]
  · intro hgt
    have hrvlb : r.readVariableLengthBytes cursor byteCount =
        Except.error (NtfsError.InvalidByteCountInDataRunHeader r.curPosition byteCount 8) := by
      unfold NtfsDataRuns.readVariableLengthBytes
      rw [if_pos (by omega)]
    constructor
    · unfold NtfsDataRuns.readVariableLengthSignedInteger
      rw [hrvlb]
    · unfold NtfsDataRuns.readVariableLengthUnsignedInteger
      rw [hrvlb]

/-- C4 witness: decoding one byte `0xFF` yields `-1` (sign extension), and at
`byte_count = 9` both decoders fail with the oversized-width error. -/
theorem c4_varint_signed_decode_witness :
    ((1 ≤ 8 → 1 ≤ ([255, 1] : List Nat).length →
      (NtfsDataRuns.new ⟨512⟩ [] 0).readVariableLengthSignedInteger ⟨[255, 1], 0⟩ 1 =
        Except.ok (signExtend 1 (u64FromLeBytes (([255, 1] : List Nat).take 1)),
          ⟨([255, 1] : List Nat).drop 1, 0 + 1⟩)) ∧
    (8 < 1 →
      (NtfsDataRuns.new ⟨512⟩ [] 0).readVariableLengthSignedInteger ⟨[255, 1], 0⟩ 1 =
        Except.error (NtfsError.InvalidByteCountInDataRunHeader
          (NtfsDataRuns.new ⟨512⟩ [] 0).curPosition 1 8) ∧
      (NtfsDataRuns.new ⟨512⟩ [] 0).readVariableLengthUnsignedInteger ⟨[255, 1], 0⟩ 1 =
        Except.error (NtfsError.InvalidByteCountInDataRunHeader
          (NtfsDataRuns.new ⟨512⟩ [] 0).curPosition 1 8))) ∧
    signExtend 1 (u64FromLeBytes (([255, 1] : List Nat).take 1)) = -1 :=
  ⟨c4_varint_signed_decode (NtfsDataRuns.new ⟨512⟩ [] 0) ⟨[255, 1], 0⟩ 1 (by decide),
   by decide⟩

/-! ### C5 -/

/-- C5: a read on a sparse Data Run (`position = 0`) with
`local_position < allocated_size` fills exactly
`n = min (buffer length) (allocated_size - local_position)` leading bytes of
the buffer with zero, reports `n` bytes, advances the local position by `n`,
and performs no operation on the external byte source. -/
theorem c5_sparse_run_read (run : NtfsDataRun) (disk : Disk) (buf : List Nat)
    (hsparse : run.position = 0)
    (hlt : run.streamPosition < run.allocatedSize)
    (halloc : run.allocatedSize < 2 ^ 64) :
    run.read disk buf =
      Except.ok (min buf.length (run.allocatedSize - run.streamPosition),
        { run with streamPosition :=
            run.streamPosition + min buf.length (run.allocatedSize - run.streamPosition) },
        List.replicate (min buf.length (run.allocatedSize - run.streamPosition)) 0
          ++ buf.drop (min buf.length (run.allocatedSize - run.streamPosition)),
        disk) := by
  have hrem : run.remainingLen = run.allocatedSize - run.streamPosition := rfl
  have hrem0 : run.remainingLen ≠ 0 := by rw [hrem]; omega
  have hwrap : wrap64 (run.streamPosition +
      min buf.length (run.allocatedSize - run.streamPosition)) =
      run.streamPosition + min buf.length (run.allocatedSize - run.streamPosition) := by
    unfold wrap64
    apply Nat.mod_eq_of_lt
    have : min buf.length (run.allocatedSize - run.streamPosition) ≤
        run.allocatedSize - run.streamPosition := Nat.min_le_right _ _
    omega
  unfold NtfsDataRun.read
  rw [if_neg hrem0, if_pos hsparse, hrem, hwrap]

/-- C5 witness: a sparse run of 8 allocated bytes at local position 3, read
with a 7-byte buffer, zero-fills 5 bytes and leaves the source untouched. -/
theorem c5_sparse_run_read_witness :
    NtfsDataRun.read ⟨0, 8, 3⟩ ⟨[1, 2, 3], 4, 7⟩ [9, 9, 9, 9, 9, 9, 9] =
      Except.ok (min 7 (8 - 3), ⟨0, 8, 3 + min 7 (8 - 3)⟩,
        List.replicate (min 7 (8 - 3)) 0 ++ List.drop (min 7 (8 - 3)) [9, 9, 9, 9, 9, 9, 9],
        ⟨[1, 2, 3], 4, 7⟩) :=
  c5_sparse_run_read ⟨0, 8, 3⟩ ⟨[1, 2, 3], 4, 7⟩ [9, 9, 9, 9, 9, 9, 9]
    (by decide) (by decide) (by decide)

/-! ### C9 -/

/-- `seek_data_run` never changes the logical stream position or the data
size (it only touches the current run and the remaining distance). -/
theorem seekDataRun_state (s : StreamState) (pos : SeekFrom) (bl : Nat)
    (r1 : Except NtfsError Bool) (s' : StreamState) (bl' : Nat)
    (h : s.seekDataRun pos bl = (r1, s', bl')) :
    s'.streamPosition = s.streamPosition ∧ s'.dataSize = s.dataSize := by
  unfold StreamState.seekDataRun at h
  split at h
  · injection h with h1 h23
    injection h23 with h2 h3
    subst h2
    exact ⟨rfl, rfl⟩
  · split at h
    · simp only [] at h
      split at h <;>
        (injection h with h1 h23; injection h23 with h2 h3; subst h2; exact ⟨rfl, rfl⟩)
    · injection h with h1 h23
      injection h23 with h2 h3
      subst h2
      exact ⟨rfl, rfl⟩

/-- Whatever `NtfsDataRuns::next` does, the underlying buffer, filesystem
reference and base position of the successor state are unchanged. -/
theorem next_snd_facts (r : NtfsDataRuns)
    (item : Option (Except NtfsError NtfsDataRun)) (r' : NtfsDataRuns)
    (h : NtfsDataRuns.next r = (item, r')) :
    r'.data = r.data ∧ r'.ntfs = r.ntfs ∧ r'.position = r.position := by
  unfold NtfsDataRuns.next at h
  split at h
  · injection h with h1 h2
    subst h2
    exact ⟨rfl, rfl, rfl⟩
  · split at h
    · injection h with h1 h2
      subst h2
      exact ⟨rfl, rfl, rfl⟩
    · unfold NtfsDataRuns.nextBody at h
      split at h
      · injection h with h1 h2
        subst h2
        exact ⟨rfl, rfl, rfl⟩
      · simp only [] at h
        split at h
        · injection h with h1 h2
          subst h2
          exact ⟨rfl, rfl, rfl⟩
        · split at h
          · injection h with h1 h2
            subst h2
            exact ⟨rfl, rfl, rfl⟩
          · split at h
            · injection h with h1 h2
              subst h2
              exact ⟨rfl, rfl, rfl⟩
            · split at h
              · injection h with h1 h2
                subst h2
                exact ⟨rfl, rfl, rfl⟩
              · injection h with h1 h2
                subst h2
                exact ⟨rfl, rfl, rfl⟩

/-- `next_data_run` never changes the logical stream position, the data size,
or the decoder's underlying buffer. -/
theorem nextDataRun_state (v : Value) (r : Except NtfsError Bool) (v' : Value)
    (h : v.nextDataRun = (r, v')) :
    v'.streamState.streamPosition = v.streamState.streamPosition ∧
    v'.streamState.dataSize = v.streamState.dataSize ∧
    v'.streamDataRuns.data = v.streamDataRuns.data := by
  unfold Value.nextDataRun at h
  rcases h1 : v.streamDataRuns.next with ⟨item, runs'⟩
  have hdata : runs'.data = v.streamDataRuns.data := (next_snd_facts _ _ _ h1).1
  rw [h1] at h
  cases item with
  | none =>
    injection h with ha hb
    subst hb
    exact ⟨rfl, rfl, hdata⟩
  | some x =>
    cases x with
    | error e =>
      injection h with ha hb
      subst hb
      exact ⟨rfl, rfl, hdata⟩
    | ok run =>
      injection h with ha hb
      subst hb
      exact ⟨rfl, rfl, hdata⟩

/-- The seek loop never changes the logical stream position or the data size,
whatever its outcome: only the final assignment after the loop does. -/
theorem seekLoop_state (fuel : Nat) :
    ∀ (v : Value) (disk : Disk) (pos : SeekFrom) (bl : Nat)
      (r : Except NtfsError Unit) (v2 : Value) (disk2 : Disk),
      Value.seekLoop fuel v disk pos bl = (r, v2, disk2) →
      v2.streamState.streamPosition = v.streamState.streamPosition ∧
      v2.streamState.dataSize = v.streamState.dataSize ∧
      v2.streamDataRuns.data = v.streamDataRuns.data := by
  induction fuel with
  | zero =>
    intro v disk pos bl r v2 disk2 h
    unfold Value.seekLoop at h
    injection h with h1 h23
    injection h23 with h2 h3
    subst h2
    exact ⟨rfl, rfl, rfl⟩
  | succ fuel ih =>
    intro v disk pos bl r v2 disk2 h
    unfold Value.seekLoop at h
    split at h
    · injection h with h1 h23
      injection h23 with h2 h3
      subst h2
      exact ⟨rfl, rfl, rfl⟩
    · split at h
      · -- seek_data_run returned an error
        rename_i e s' bl1 heq
        have hst := seekDataRun_state v.streamState pos bl (Except.error e) s' bl1 heq
        injection h with ha hbc
        injection hbc with hb hc
        subst hb
        exact ⟨hst.1, hst.2, rfl⟩
      · -- seek_data_run resolved the seek
        rename_i s' bl1 heq
        have hst := seekDataRun_state v.streamState pos bl (Except.ok true) s' bl1 heq
        injection h with ha hbc
        injection hbc with hb hc
        subst hb
        exact ⟨hst.1, hst.2, rfl⟩
      · -- seek_data_run skipped the run: pull the next one
        rename_i s' bl1 heq
        have hst := seekDataRun_state v.streamState pos bl (Except.ok false) s' bl1 heq
        split at h
        · rename_i e v' heq2
          have hst2 := nextDataRun_state { v with streamState := s' } (Except.error e) v' heq2
          injection h with ha hbc
          injection hbc with hb hc
          subst hb
          exact ⟨hst2.1.trans hst.1, hst2.2.1.trans hst.2, hst2.2.2⟩
        · rename_i v' heq2
          have hst2 := nextDataRun_state { v with streamState := s' } (Except.ok true) v' heq2
          have := ih v' disk pos bl1 r v2 disk2 h
          exact ⟨this.1.trans (hst2.1.trans hst.1),
            this.2.1.trans (hst2.2.1.trans hst.2),
            this.2.2.trans hst2.2.2⟩
        · rename_i v' heq2
          have hst2 := nextDataRun_state { v with streamState := s' } (Except.ok false) v' heq2
          injection h with ha hbc
          injection hbc with hb hc
          subst hb
          exact ⟨hst2.1.trans hst.1, hst2.2.1.trans hst.2, hst2.2.2⟩

/-- A successful `seekTail` on a from-current request returns the pre-loop
stream position plus the delta (wrapped), and sets the stream position to
exactly that value. -/
theorem seekTail_current (v : Value) (disk : Disk) (d : Int) (k : Nat)
    (r : Nat) (v2 : Value) (disk2 : Disk)
    (h : Value.seekTail v disk (SeekFrom.Current d) k = (Except.ok r, v2, disk2)) :
    r = wrap64 (v.streamState.streamPosition + u64OfI64 d) ∧
    v2.streamState.streamPosition = wrap64 (v.streamState.streamPosition + u64OfI64 d) ∧
    v2.streamState.dataSize = v.streamState.dataSize ∧
    v2.streamDataRuns.data = v.streamDataRuns.data := by
  unfold Value.seekTail at h
  rcases hloop : Value.seekLoop (v.streamDataRuns.data.length + 1) v disk
      (SeekFrom.Current d) k with ⟨res, vl, diskl⟩
  rw [hloop] at h
  have hvl := seekLoop_state (v.streamDataRuns.data.length + 1) v disk
    (SeekFrom.Current d) k res vl diskl hloop
  cases res with
  | error e => exact absurd h (by simp)
  | ok u =>
    injection h with h1 h23
    injection h23 with h2 h3
    subst h2
    refine ⟨?_, ?_, hvl.2.1, hvl.2.2⟩
    · injection h1 with h1'
      rw [← h1', hvl.1]
    · show wrap64 (vl.streamState.streamPosition + u64OfI64 d) = _
      rw [hvl.1]

/-- A successful `seekTail` on a from-start request returns the target and
sets the stream position to exactly the target. -/
theorem seekTail_start (v : Value) (disk : Disk) (n k : Nat)
    (r : Nat) (v2 : Value) (disk2 : Disk)
    (h : Value.seekTail v disk (SeekFrom.Start n) k = (Except.ok r, v2, disk2)) :
    r = n ∧ v2.streamState.streamPosition = n ∧
    v2.streamState.dataSize = v.streamState.dataSize ∧
    v2.streamDataRuns.data = v.streamDataRuns.data := by
  unfold Value.seekTail at h
  rcases hloop : Value.seekLoop (v.streamDataRuns.data.length + 1) v disk
      (SeekFrom.Start n) k with ⟨res, vl, diskl⟩
  rw [hloop] at h
  have hvl := seekLoop_state (v.streamDataRuns.data.length + 1) v disk
    (SeekFrom.Start n) k res vl diskl hloop
  cases res with
  | error e => exact absurd h (by simp)
  | ok u =>
    injection h with h1 h23
    injection h23 with h2 h3
    subst h2
    refine ⟨?_, rfl, hvl.2.1, hvl.2.2⟩
    injection h1 with h1'
    exact h1'.symm

/-- C9: a from-start target `n` at or past the current stream position (with
the difference an `i64` value) is rewritten by `optimize_seek` into the
from-current request with delta `n - stream_position`; performing the seek
through the rewritten request and performing it by restarting decode from the
buffer's beginning both return `n` and both leave the logical stream position
at exactly `n` whenever they succeed. -/
theorem c9_optimize_seek_refines (v : Value) (disk : Disk) (n : Nat)
    (h64 : n < 2 ^ 64)
    (hge : v.streamState.streamPosition ≤ n)
    (hrep : n - v.streamState.streamPosition < 2 ^ 63) :
    v.streamState.optimizeSeek (SeekFrom.Start n) v.len =
      Except.ok (SeekFrom.Current ((n : Int) - v.streamState.streamPosition)) ∧
    (exceptIsOk (v.seek disk (SeekFrom.Start n)).1 = true →
      (v.seek disk (SeekFrom.Start n)).1 = Except.ok n ∧
      (v.seek disk (SeekFrom.Start n)).2.1.streamState.streamPosition = n) ∧
    (exceptIsOk (v.seekFromScratch disk n).1 = true →
      (v.seekFromScratch disk n).1 = Except.ok n ∧
      (v.seekFromScratch disk n).2.1.streamState.streamPosition = n) := by
  have hcast : ((n - v.streamState.streamPosition : Nat) : Int) =
      (n : Int) - v.streamState.streamPosition := by omega
  have hopt : v.streamState.optimizeSeek (SeekFrom.Start n) v.len =
      Except.ok (SeekFrom.Current ((n : Int) - v.streamState.streamPosition)) := by
    unfold StreamState.optimizeSeek StreamState.simplifySeek
    have hsub : checkedSub64 n v.streamState.streamPosition =
        some (n - v.streamState.streamPosition) := by
      unfold checkedSub64; rw [if_pos hge]
    have htf : i64TryFromU64 (n - v.streamState.streamPosition) =
        some ((n - v.streamState.streamPosition : Nat) : Int) := by
      unfold i64TryFromU64; rw [if_pos hrep]
    simp only [hsub, htf, hcast]
  have hd0 : (0 : Int) ≤ (n : Int) - v.streamState.streamPosition := by omega
  have hdnat : ((n : Int) - v.streamState.streamPosition).toNat =
      n - v.streamState.streamPosition := by omega
  have hu : u64OfI64 ((n : Int) - v.streamState.streamPosition) =
      n - v.streamState.streamPosition := by
    unfold u64OfI64
    rw [Int.emod_eq_of_lt hd0 (by omega)]
    omega
  have hwrapn : wrap64 (v.streamState.streamPosition +
      u64OfI64 ((n : Int) - v.streamState.streamPosition)) = n := by
    rw [hu]
    unfold wrap64
    rw [Nat.add_sub_cancel' hge]
    exact Nat.mod_eq_of_lt h64
  have hseek_eq : v.seek disk (SeekFrom.Start n) =
      Value.seekTail v disk (SeekFrom.Current ((n : Int) - v.streamState.streamPosition))
        (n - v.streamState.streamPosition) := by
    unfold Value.seek
    rw [hopt]
    show (if (0 : Int) ≤ (n : Int) - v.streamState.streamPosition then
        Value.seekTail v disk
          (SeekFrom.Current ((n : Int) - v.streamState.streamPosition))
          (((n : Int) - v.streamState.streamPosition).toNat)
      else (Except.error (NtfsError.IoErr IoErrKind.InvalidInput), v, disk)) = _
    rw [if_pos hd0, hdnat]
  refine ⟨hopt, ?_, ?_⟩
  · -- the rewritten (from-current) seek
    rw [hseek_eq]
    rcases hres : Value.seekTail v disk
        (SeekFrom.Current ((n : Int) - v.streamState.streamPosition))
        (n - v.streamState.streamPosition) with ⟨res, v2, disk2⟩
    cases res with
    | error e => intro hok; simp [exceptIsOk] at hok
    | ok r =>
      intro _
      have hcur := seekTail_current v disk
        ((n : Int) - v.streamState.streamPosition)
        (n - v.streamState.streamPosition) r v2 disk2 hres
      rw [hwrapn] at hcur
      exact ⟨by rw [hcur.1], hcur.2.1⟩
  · -- the restart-from-scratch seek
    unfold Value.seekFromScratch
    rcases hres : Value.seekTail
        { v with
            streamDataRuns := v.dataRuns,
            streamState := StreamState.new v.len } disk (SeekFrom.Start n) n
      with ⟨res, v2, disk2⟩
    cases res with
    | error e => intro hok; simp [exceptIsOk] at hok
    | ok r =>
      intro _
      have hst := seekTail_start
        { v with
            streamDataRuns := v.dataRuns,
            streamState := StreamState.new v.len } disk n n r v2 disk2 hres
      exact ⟨by rw [hst.1], hst.2.1⟩

/-- C9 witness: a reader at stream position 0 with data size 100 over an
empty run list; the from-start target 7 is rewritten to from-current delta 7,
and both seek paths land at position 7. -/
theorem c9_optimize_seek_refines_witness :
    (let v : Value := ⟨⟨512⟩, [], 0, NtfsDataRuns.new ⟨512⟩ [] 0, ⟨none, 0, 100⟩⟩
     let disk : Disk := ⟨[], 0, 0⟩
     v.streamState.optimizeSeek (SeekFrom.Start 7) v.len =
        Except.ok (SeekFrom.Current ((7 : Int) - v.streamState.streamPosition)) ∧
     (exceptIsOk (v.seek disk (SeekFrom.Start 7)).1 = true →
        (v.seek disk (SeekFrom.Start 7)).1 = Except.ok 7 ∧
        (v.seek disk (SeekFrom.Start 7)).2.1.streamState.streamPosition = 7) ∧
     (exceptIsOk (v.seekFromScratch disk 7).1 = true →
        (v.seekFromScratch disk 7).1 = Except.ok 7 ∧
        (v.seekFromScratch disk 7).2.1.streamState.streamPosition = 7)) :=
  c9_optimize_seek_refines ⟨⟨512⟩, [], 0, NtfsDataRuns.new ⟨512⟩ [] 0, ⟨none, 0, 100⟩⟩
    ⟨[], 0, 0⟩ 7 (by decide) (by decide) (by decide)

/-! ### C10 -/

/-- Accounting facts about a single `NtfsDataRun::read` call: the byte count
is bounded by the buffer length and the run's remaining length, the buffer
length is preserved, the run's identity fields are preserved, and the local
position advances by exactly the count. -/
theorem dataRunRead_accounting (run : NtfsDataRun) (disk : Disk) (buf : List Nat)
    (k : Nat) (run' : NtfsDataRun) (buf' : List Nat) (disk' : Disk)
    (h : run.read disk buf = Except.ok (k, run', buf', disk')) :
    k ≤ buf.length ∧ buf'.length = buf.length ∧ k ≤ run.remainingLen ∧
    run'.allocatedSize = run.allocatedSize ∧ run'.position = run.position ∧
    (0 < run.remainingLen →
      k = min buf.length run.remainingLen ∧
      run'.streamPosition = wrap64 (run.streamPosition + k)) := by
  unfold NtfsDataRun.read at h
  split at h
  · -- remaining_len = 0
    rename_i hrem
    injection h with h1
    injection h1 with hk h1
    injection h1 with hrun h1
    injection h1 with hbuf hdisk
    subst hk hrun hbuf hdisk
    exact ⟨Nat.zero_le _, rfl, Nat.zero_le _, rfl, rfl, fun hlt => absurd hrem (by omega)⟩
  · simp only [] at h
    split at h
    · -- sparse
      injection h with h1
      injection h1 with hk h1
      injection h1 with hrun h1
      injection h1 with hbuf hdisk
      subst hk hrun hbuf hdisk
      refine ⟨Nat.min_le_left _ _, ?_, Nat.min_le_right _ _, rfl, rfl,
        fun _ => ⟨rfl, rfl⟩⟩
      rw [List.length_append, List.length_replicate, List.length_drop]
      have := Nat.min_le_left buf.length run.remainingLen
      omega
    · -- real data
      split at h
      · exact absurd h (by simp)
      · injection h with h1
        injection h1 with hk h1
        injection h1 with hrun h1
        injection h1 with hbuf hdisk
        subst hk hrun hbuf hdisk
        refine ⟨Nat.min_le_left _ _, ?_, Nat.min_le_right _ _, rfl, rfl,
          fun _ => ⟨rfl, rfl⟩⟩
        simp only [Disk.read, List.length_append, List.length_map, List.length_range,
          List.length_drop]
        have := Nat.min_le_left buf.length run.remainingLen
        omega

/-- Full characterization of a single `StreamState::read_data_run` call: it
never fails in this environment model; a `false` result changes nothing and
means the current run is missing/exhausted or the logical budget is zero; a
`true` result advances the byte count and the stream position together, by
exactly the clamped minimum of buffer space, remaining data size and current
run remainder. -/
theorem readDataRun_spec (s : StreamState) (disk : Disk) (buf : List Nat) (br : Nat)
    (r : Except NtfsError Bool) (s' : StreamState) (buf' : List Nat) (disk' : Disk)
    (br' : Nat)
    (h : s.readDataRun disk buf br = (r, s', buf', disk', br')) :
    s'.dataSize = s.dataSize ∧
    buf'.length = buf.length ∧
    (r = Except.ok true ∨ r = Except.ok false) ∧
    (r = Except.ok false →
      (s' = s ∧ buf' = buf ∧ disk' = disk ∧ br' = br) ∧
      (curRem s = 0 ∨ s.dataSize - s.streamPosition = 0)) ∧
    (r = Except.ok true →
      0 < s.dataSize - s.streamPosition ∧
      br ≤ br' ∧
      br' - br ≤ s.dataSize - s.streamPosition ∧
      br' - br ≤ buf.length - br ∧
      s'.streamPosition = wrap64 (s.streamPosition + (br' - br)) ∧
      (br ≤ buf.length →
        br' - br =
          min (min (buf.length - br) (s.dataSize - s.streamPosition)) (curRem s)) ∧
      (runAllocOk s = true →
        curRem s' = curRem s - (br' - br) ∧ runAllocOk s' = true) ∧
      0 < curRem s) := by
  unfold StreamState.readDataRun at h
  split at h
  · -- no current Data Run
    rename_i hnone
    injection h with h1 h
    injection h with h2 h
    injection h with h3 h
    injection h with h4 h5
    subst h1 h2 h3 h4 h5
    refine ⟨rfl, rfl, Or.inr rfl, ?_, ?_⟩
    · intro _
      exact ⟨⟨rfl, rfl, rfl, rfl⟩, Or.inl (by unfold curRem; rw [hnone])⟩
    · intro hcontra
      exact absurd hcontra (by simp)
  · rename_i dataRun hsome
    have hcur : curRem s = dataRun.remainingLen := by
      unfold curRem
      rw [hsome]
    have hallocs : runAllocOk s = true ↔ dataRun.allocatedSize < 2 ^ 64 := by
      unfold runAllocOk
      rw [hsome]
      show decide (dataRun.allocatedSize < 2 ^ 64) = true ↔
        dataRun.allocatedSize < 2 ^ 64
      exact ⟨fun hx => of_decide_eq_true hx, fun hx => decide_eq_true hx⟩
    split at h
    · -- the current run is exhausted
      rename_i hexh
      injection h with h1 h
      injection h with h2 h
      injection h with h3 h
      injection h with h4 h5
      subst h1 h2 h3 h4 h5
      refine ⟨rfl, rfl, Or.inr rfl, ?_, ?_⟩
      · intro _
        refine ⟨⟨rfl, rfl, rfl, rfl⟩, Or.inl ?_⟩
        rw [hcur]
        unfold NtfsDataRun.remainingLen
        omega
      · intro hcontra
        exact absurd hcontra (by simp)
    · rename_i hexh
      simp only [] at h
      split at h
      · -- the remaining (used) data size is zero
        rename_i hzero
        injection h with h1 h
        injection h with h2 h
        injection h with h3 h
        injection h with h4 h5
        subst h1 h2 h3 h4 h5
        refine ⟨rfl, rfl, Or.inr rfl, ?_, ?_⟩
        · intro _
          exact ⟨⟨rfl, rfl, rfl, rfl⟩, Or.inr hzero⟩
        · intro hcontra
          exact absurd hcontra (by simp)
      · -- an actual read from the current run
        rename_i hzero
        have hrem : 0 < dataRun.remainingLen := by
          unfold NtfsDataRun.remainingLen
          omega
        split at h
        · -- error from the run read: impossible given the guards
          rename_i e heq
          exfalso
          unfold NtfsDataRun.read at heq
          rw [if_neg (by omega)] at heq
          by_cases hsp : dataRun.position = 0
          · rw [if_pos hsp] at heq
            exact absurd heq (by simp)
          · rw [if_neg hsp] at heq
            have hcond : 0 < dataRun.position ∧
                dataRun.streamPosition ≤ dataRun.allocatedSize := by
              constructor
              · omega
              · unfold NtfsDataRun.remainingLen at hrem
                omega
            have hdp : dataRun.dataPosition =
                some (wrap64 (dataRun.position + dataRun.streamPosition)) := by
              unfold NtfsDataRun.dataPosition
              rw [if_pos hcond]
            rw [hdp] at heq
            exact absurd heq (by simp)
        · rename_i k run' slice' disk2 heq
          have hacc := dataRunRead_accounting dataRun disk _ k run' slice' disk2 heq
          have hklen := hacc.1
          rw [List.length_drop, List.length_take] at hklen
          have hslen := hacc.2.1
          rw [List.length_drop, List.length_take] at hslen
          have hkeq := (hacc.2.2.2.2.2 hrem).1
          rw [List.length_drop, List.length_take] at hkeq
          have hwrapk := (hacc.2.2.2.2.2 hrem).2
          injection h with h1 h
          injection h with h2 h
          injection h with h3 h
          injection h with h4 h5
          subst h1 h2 h3 h4 h5
          have hkbound : k ≤ s.dataSize - s.streamPosition := by
            have h1 := hklen
            omega
          refine ⟨rfl, ?_, Or.inl rfl, ?_, ?_⟩
          · -- buffer length preserved by the splice
            rw [List.length_append, List.length_append, List.length_take,
              List.length_drop, hslen]
            omega
          · intro hcontra
            exact absurd hcontra (by simp)
          · intro _
            refine ⟨by omega, by omega,
              by simp only [Nat.add_sub_cancel_left]; exact hkbound,
              by simp only [Nat.add_sub_cancel_left]; omega,
              by simp only [Nat.add_sub_cancel_left], ?_, ?_, by rw [hcur]; exact hrem⟩
            · intro hbr
              simp only [Nat.add_sub_cancel_left]
              rw [hkeq, hcur]
              have hmin : min (buf.length - br) (s.dataSize - s.streamPosition) ≤
                  buf.length - br := Nat.min_le_left _ _
              have hend : min (br + min (buf.length - br) (s.dataSize - s.streamPosition))
                  buf.length = br + min (buf.length - br) (s.dataSize - s.streamPosition) := by
                apply Nat.min_eq_left
                omega
              rw [hend]
              omega
            · intro hallocok
              have halloc : dataRun.allocatedSize < 2 ^ 64 := hallocs.mp hallocok
              have hwrap : run'.streamPosition = dataRun.streamPosition + k := by
                rw [hwrapk]
                unfold wrap64
                apply Nat.mod_eq_of_lt
                have hkr : k ≤ dataRun.remainingLen := hacc.2.2.1
                unfold NtfsDataRun.remainingLen at hkr
                omega
              constructor
              · simp only [Nat.add_sub_cancel_left, hcur]
                show run'.remainingLen = dataRun.remainingLen - k
                unfold NtfsDataRun.remainingLen
                rw [hwrap, hacc.2.2.2.1]
                omega
              · show decide (run'.allocatedSize < 2 ^ 64) = true
                rw [hacc.2.2.2.1]
                exact decide_eq_true halloc

/-- Accounting facts about the read loop: a successful loop run returns a
byte count that grows from the entry count, stays within the buffer, advances
the stream position by exactly the bytes added, preserves the data size and
the buffer length, and never pushes the position past the data size. -/
theorem readLoop_accounting (fuel : Nat) :
    ∀ (v : Value) (disk : Disk) (buf : List Nat) (br : Nat) (r : Nat)
      (v' : Value) (buf' : List Nat) (disk' : Disk),
      Value.readLoop fuel v disk buf br = (Except.ok r, v', buf', disk') →
      v.streamState.dataSize < 2 ^ 64 →
      br ≤ r ∧ (br ≤ buf.length → r ≤ buf.length) ∧
      v'.streamState.dataSize = v.streamState.dataSize ∧
      v'.streamState.streamPosition = v.streamState.streamPosition + (r - br) ∧
      (v.streamState.streamPosition ≤ v.streamState.dataSize →
        v'.streamState.streamPosition ≤ v.streamState.dataSize) ∧
      buf'.length = buf.length := by
  induction fuel with
  | zero =>
    intro v disk buf br r v' buf' disk' h hds
    unfold Value.readLoop at h
    injection h with h1 h
    injection h with h2 h
    injection h with h3 h4
    injection h1 with h1
    subst h1 h2 h3 h4
    exact ⟨le_refl _, fun hb => hb, rfl, by omega, fun hb => hb, rfl⟩
  | succ fuel ih =>
    intro v disk buf br r v' buf' disk' h hds
    unfold Value.readLoop at h
    split at h
    · rename_i hbr
      split at h
      · -- read_data_run failed: contradicts the successful result
        injection h with h1 h
        injection h1
      · -- read_data_run made progress
        rename_i s1 buf1 disk1 br1 heq
        have hstep := readDataRun_spec v.streamState disk buf br
          (Except.ok true) s1 buf1 disk1 br1 heq
        have htrue := hstep.2.2.2.2 rfl
        have hposlt : v.streamState.streamPosition < v.streamState.dataSize := by
          have := htrue.1
          omega
        have hpos1 : s1.streamPosition =
            v.streamState.streamPosition + (br1 - br) := by
          rw [htrue.2.2.2.2.1]
          unfold wrap64
          apply Nat.mod_eq_of_lt
          have := htrue.2.2.1
          omega
        have hds1 : ({ v with streamState := s1 } : Value).streamState.dataSize < 2 ^ 64 := by
          show s1.dataSize < 2 ^ 64
          rw [hstep.1]
          exact hds
        have hIH := ih { v with streamState := s1 } disk1 buf1 br1 r v' buf' disk' h hds1
        have hlen1 : buf1.length = buf.length := hstep.2.1
        refine ⟨?_, ?_, ?_, ?_, ?_, ?_⟩
        · have := hIH.1
          have := htrue.2.1
          omega
        · intro hble
          have hbr1 : br1 ≤ buf.length := by
            have := htrue.2.2.2.1
            have := htrue.2.1
            omega
          have := hIH.2.1 (by rw [hlen1]; exact hbr1)
          omega
        · rw [hIH.2.2.1]
          show s1.dataSize = _
          exact hstep.1
        · rw [hIH.2.2.2.1]
          show s1.streamPosition + (r - br1) = _
          rw [hpos1]
          have := hIH.1
          have := htrue.2.1
          omega
        · intro hple
          have h1 : s1.streamPosition ≤ s1.dataSize := by
            rw [hpos1]
            show _ ≤ s1.dataSize
            rw [hstep.1]
            have := htrue.2.2.1
            omega
          have := hIH.2.2.2.2.1 h1
          rw [hstep.1] at this
          exact this
        · rw [hIH.2.2.2.2.2, hlen1]
      · -- read_data_run made no progress: pull the next Data Run
        rename_i s1 buf1 disk1 br1 heq
        have hstep := readDataRun_spec v.streamState disk buf br
          (Except.ok false) s1 buf1 disk1 br1 heq
        obtain ⟨⟨hs1, hbuf1, hdisk1, hbr1⟩, -⟩ := hstep.2.2.2.1 rfl
        subst hs1 hbuf1 hdisk1 hbr1
        split at h
        · -- decode error from the next run: contradicts the success
          injection h with h1 h
          injection h1
        · -- got another Data Run: read again
          rename_i v2 heq2
          have hnext := nextDataRun_state { v with streamState := v.streamState }
            (Except.ok true) v2 heq2
          have hn1 : v2.streamState.streamPosition = v.streamState.streamPosition :=
            hnext.1
          have hn2 : v2.streamState.dataSize = v.streamState.dataSize := hnext.2.1
          have hds2 : v2.streamState.dataSize < 2 ^ 64 := by
            rw [hn2]
            exact hds
          have hIH := ih v2 disk1 buf1 br1 r v' buf' disk' h hds2
          refine ⟨hIH.1, hIH.2.1, ?_, ?_, ?_, hIH.2.2.2.2.2⟩
          · rw [hIH.2.2.1, hn2]
          · rw [hIH.2.2.2.1, hn1]
          · intro hple
            have := hIH.2.2.2.2.1 (by rw [hn1, hn2]; exact hple)
            rw [hn2] at this
            exact this
        · -- the decoder is exhausted: stop
          rename_i v2 heq2
          have hnext := nextDataRun_state { v with streamState := v.streamState }
            (Except.ok false) v2 heq2
          have hn1 : v2.streamState.streamPosition = v.streamState.streamPosition :=
            hnext.1
          have hn2 : v2.streamState.dataSize = v.streamState.dataSize := hnext.2.1
          injection h with h1 h
          injection h with h2 h
          injection h with h3 h4
          injection h1 with h1
          subst h1 h2 h3 h4
          exact ⟨le_refl _, fun hb => hb, hn2, by rw [hn1]; omega,
            fun hb => by rw [hn1]; exact hb, rfl⟩
    · -- the buffer is already full
      injection h with h1 h
      injection h with h2 h
      injection h with h3 h4
      injection h1 with h1
      subst h1 h2 h3 h4
      exact ⟨le_refl _, fun hb => hb, rfl, by omega, fun hb => hb, rfl⟩

/-- C10: every successful read call returns at most the buffer length,
advances the logical stream position by exactly the returned count, and —
whenever the position was at most the declared data size before the call —
leaves it at most the declared data size after the call. -/
theorem c10_read_accounting (v : Value) (disk : Disk) (buf : List Nat)
    (r : Nat) (v' : Value) (buf' : List Nat) (disk' : Disk)
    (hds : v.streamState.dataSize < 2 ^ 64)
    (h : v.read disk buf = (Except.ok r, v', buf', disk')) :
    r ≤ buf.length ∧
    v'.streamState.streamPosition = v.streamState.streamPosition + r ∧
    (v.streamState.streamPosition ≤ v.streamState.dataSize →
      v'.streamState.streamPosition ≤ v.streamState.dataSize) := by
  unfold Value.read at h
  have hacc := readLoop_accounting (buf.length + v.streamDataRuns.data.length + 1)
    v disk buf 0 r v' buf' disk' h hds
  refine ⟨hacc.2.1 (Nat.zero_le _), ?_, hacc.2.2.2.2.1⟩
  rw [hacc.2.2.2.1]
  omega

/-- C10 witness: a reader over a single 512-byte run with data size 100 reads
5 bytes into a 5-byte buffer, the position advances from 0 to exactly 5, and
5 is at most the data size. -/
theorem c10_read_accounting_witness :
    5 ≤ ([9, 9, 9, 9, 9] : List Nat).length ∧
    (⟨⟨512⟩, [0x11, 0x01, 0x01, 0x00], 0,
        ⟨⟨512⟩, [0x11, 0x01, 0x01, 0x00], 0, ⟨3, 1⟩⟩,
        ⟨some ⟨512, 512, 5⟩, 5, 100⟩⟩ : Value).streamState.streamPosition = 0 + 5 ∧
    ((0 : Nat) ≤ 100 →
      (⟨⟨512⟩, [0x11, 0x01, 0x01, 0x00], 0,
          ⟨⟨512⟩, [0x11, 0x01, 0x01, 0x00], 0, ⟨3, 1⟩⟩,
          ⟨some ⟨512, 512, 5⟩, 5, 100⟩⟩ : Value).streamState.streamPosition ≤ 100) :=
  c10_read_accounting
    ⟨⟨512⟩, [0x11, 0x01, 0x01, 0x00], 0,
      ⟨⟨512⟩, [0x11, 0x01, 0x01, 0x00], 0, ⟨3, 1⟩⟩, ⟨some ⟨512, 512, 0⟩, 0, 100⟩⟩
    ⟨[], 0, 0⟩ [9, 9, 9, 9, 9] 5
    ⟨⟨512⟩, [0x11, 0x01, 0x01, 0x00], 0,
      ⟨⟨512⟩, [0x11, 0x01, 0x01, 0x00], 0, ⟨3, 1⟩⟩, ⟨some ⟨512, 512, 5⟩, 5, 100⟩⟩
    [0, 0, 0, 0, 0] ⟨[], 517, 2⟩ (by decide) (by decide)

/-! ### Decoder lemmas for the well-formed read claims -/

/-- A successful `read_exact` advances the cursor by exactly the byte
count. -/
theorem readExact_ok (c : RCursor) (bc : Nat) (bs : List Nat) (c' : RCursor)
    (h : c.readExact bc = Except.ok (bs, c')) :
    c'.consumed = c.consumed + bc := by
  unfold RCursor.readExact at h
  split at h
  · injection h with h1
    injection h1 with h2 h3
    subst h3
    rfl
  · exact absurd h (by simp)

/-- A successful `read_variable_length_bytes` advances the cursor by exactly
the byte count. -/
theorem rvlb_ok (r : NtfsDataRuns) (cursor : RCursor) (bc : Nat)
    (buf : List Nat) (c' : RCursor)
    (h : r.readVariableLengthBytes cursor bc = Except.ok (buf, c')) :
    c'.consumed = cursor.consumed + bc := by
  unfold NtfsDataRuns.readVariableLengthBytes at h
  split at h
  · exact absurd h (by simp)
  · split at h
    · exact absurd h (by simp)
    · rename_i bs c'' heq
      injection h with h1
      injection h1 with h2 h3
      subst h3
      exact readExact_ok cursor bc bs c'' heq

/-- A successful unsigned varint read advances the cursor by exactly the byte
count. -/
theorem rvlu_ok (r : NtfsDataRuns) (cursor : RCursor) (bc : Nat)
    (u : Nat) (c' : RCursor)
    (h : r.readVariableLengthUnsignedInteger cursor bc = Except.ok (u, c')) :
    c'.consumed = cursor.consumed + bc := by
  unfold NtfsDataRuns.readVariableLengthUnsignedInteger at h
  split at h
  · exact absurd h (by simp)
  · rename_i buf c'' heq
    injection h with h1
    injection h1 with h2 h3
    subst h3
    exact rvlb_ok r cursor bc buf c'' heq

/-- A successful signed varint read advances the cursor by exactly the byte
count. -/
theorem rvls_ok (r : NtfsDataRuns) (cursor : RCursor) (bc : Nat)
    (i : Int) (c' : RCursor)
    (h : r.readVariableLengthSignedInteger cursor bc = Except.ok (i, c')) :
    c'.consumed = cursor.consumed + bc := by
  unfold NtfsDataRuns.readVariableLengthSignedInteger at h
  split at h
  · exact absurd h (by simp)
  · rename_i buf c'' heq
    simp only [] at h
    injection h with h1
    injection h1 with h2 h3
    subst h3
    exact rvlb_ok r cursor bc buf c'' heq

/-- A successfully constructed Data Run starts at local position 0 and has an
allocated size within the `u64` range (checked multiplication). -/
theorem dataRunNew_ok (ntfs : Ntfs) (lcn : Int) (cc : Nat) (run : NtfsDataRun)
    (h : NtfsDataRun.new ntfs lcn cc = Except.ok run) :
    run.streamPosition = 0 ∧ run.allocatedSize < 2 ^ 64 := by
  unfold NtfsDataRun.new at h
  split at h
  · exact absurd h (by simp)
  · split at h
    · exact absurd h (by simp)
    · rename_i alloc heq
      unfold checkedMul64 at heq
      split at heq
      · injection h with h1
        injection heq with heq1
        subst h1
        rename_i hlt
        refine ⟨rfl, ?_⟩
        show alloc < 2 ^ 64
        omega
      · exact absurd heq (by simp)

/-- A `next` call that produces a Data Run advances the cursor offset by at
least one byte, keeps the buffer, and its run satisfies the construction
invariants. -/
theorem next_ok_facts (r : NtfsDataRuns) (run : NtfsDataRun) (r' : NtfsDataRuns)
    (h : NtfsDataRuns.next r = (some (Except.ok run), r')) :
    r'.data = r.data ∧ r.state.offset < r'.state.offset ∧
    run.allocatedSize < 2 ^ 64 ∧ run.streamPosition = 0 := by
  unfold NtfsDataRuns.next at h
  split at h
  · injection h with h1 h2
    injection h1
  · split at h
    · injection h with h1 h2
      injection h1 with h1
      injection h1
    · rename_i header rest hdrop
      unfold NtfsDataRuns.nextBody at h
      split at h
      · injection h with h1 h2
        injection h1
      · simp only [] at h
        split at h
        · injection h with h1 h2
          injection h1 with h1
          injection h1
        · rename_i cc cursor1 heq1
          split at h
          · injection h with h1 h2
            injection h1 with h1
            injection h1
          · rename_i vcn cursor2 heq2
            split at h
            · injection h with h1 h2
              injection h1 with h1
              injection h1
            · rename_i lcn heq3
              split at h
              · injection h with h1 h2
                injection h1 with h1
                injection h1
              · rename_i run2 heq4
                injection h with h1 h2
                injection h1 with h1
                injection h1 with h1
                subst h2
                have hc1 : cursor1.consumed = 1 + header % 16 :=
                  rvlu_ok r ⟨rest, 1⟩ (header % 16) cc cursor1 heq1
                have hc2 : cursor2.consumed = cursor1.consumed + header / 16 :=
                  rvls_ok r cursor1 (header / 16) vcn cursor2 heq2
                have hnew := dataRunNew_ok r.ntfs lcn cc run2 heq4
                refine ⟨rfl, ?_, by rw [← h1]; exact hnew.2, by rw [← h1]; exact hnew.1⟩
                show r.state.offset < r.state.offset + cursor2.consumed
                omega

/-- A `next` call that yields nothing leaves a terminated successor state
over the same buffer. -/
theorem next_none_facts (r : NtfsDataRuns) (r' : NtfsDataRuns)
    (h : NtfsDataRuns.next r = (none, r')) :
    r'.data = r.data ∧ r'.data.length ≤ r'.state.offset := by
  unfold NtfsDataRuns.next at h
  split at h
  · rename_i hterm
    injection h with h1 h2
    subst h2
    exact ⟨rfl, hterm⟩
  · split at h
    · injection h with h1 h2
      injection h1
    · rename_i header rest hdrop
      unfold NtfsDataRuns.nextBody at h
      split at h
      · injection h with h1 h2
        subst h2
        exact ⟨rfl, le_refl _⟩
      · simp only [] at h
        split at h
        · injection h with h1 h2
          injection h1
        · split at h
          · injection h with h1 h2
            injection h1
          · split at h
            · injection h with h1 h2
              injection h1
            · split at h
              · injection h with h1 h2
                injection h1
              · injection h with h1 h2
                injection h1

/-- Decoding from a terminated cursor state yields the empty run list. -/
theorem decodeRest_terminated (r : NtfsDataRuns)
    (hoff : r.data.length ≤ r.state.offset) :
    decodeRest r = Except.ok [] := by
  unfold decodeRest
  cases hm : r.data.length + 1 - r.state.offset with
  | zero => rfl
  | succ m =>
    unfold decodeRestAux
    rw [next_of_terminated r hoff]

/-- The fueled decoder is fuel-irrelevant above the canonical bound. -/
theorem decodeRestAux_mono : ∀ (f g : Nat) (r : NtfsDataRuns),
    r.data.length + 1 - r.state.offset ≤ f →
    r.data.length + 1 - r.state.offset ≤ g →
    decodeRestAux f r = decodeRestAux g r := by
  intro f
  induction f with
  | zero =>
    intro g r hf hg
    have hterm : r.data.length ≤ r.state.offset := by omega
    cases g with
    | zero => rfl
    | succ g =>
      show Except.ok [] = decodeRestAux (g + 1) r
      unfold decodeRestAux
      rw [next_of_terminated r hterm]
  | succ f ih =>
    intro g r hf hg
    cases g with
    | zero =>
      have hterm : r.data.length ≤ r.state.offset := by omega
      show decodeRestAux (f + 1) r = Except.ok []
      unfold decodeRestAux
      rw [next_of_terminated r hterm]
    | succ g =>
      show decodeRestAux (f + 1) r = decodeRestAux (g + 1) r
      unfold decodeRestAux
      rcases hnext : NtfsDataRuns.next r with ⟨item, r'⟩
      cases item with
      | none => rfl
      | some x =>
        cases x with
        | error e => rfl
        | ok run =>
          have hfacts := next_ok_facts r run r' hnext
          have hoff : r.state.offset < r.data.length := by
            by_contra hge
            rw [next_of_terminated r (by omega)] at hnext
            injection hnext with h1 h2
            injection h1
          have hb : r'.data.length + 1 - r'.state.offset ≤ f := by
            rw [hfacts.1]
            omega
          have hb2 : r'.data.length + 1 - r'.state.offset ≤ g := by
            rw [hfacts.1]
            omega
          show (match decodeRestAux f r' with
            | Except.error e => Except.error e
            | Except.ok rest => Except.ok (run :: rest)) =
            (match decodeRestAux g r' with
            | Except.error e => Except.error e
            | Except.ok rest => Except.ok (run :: rest))
          rw [ih g r' hb hb2]

/-- Decoding a non-empty run list factors through one `next` step. -/
theorem decodeRest_cons (r : NtfsDataRuns) (run : NtfsDataRun)
    (rest : List NtfsDataRun)
    (h : decodeRest r = Except.ok (run :: rest)) :
    ∃ r', NtfsDataRuns.next r = (some (Except.ok run), r') ∧
      decodeRest r' = Except.ok rest := by
  unfold decodeRest at h
  cases hm : r.data.length + 1 - r.state.offset with
  | zero =>
    rw [hm] at h
    injection h with h1
    injection h1
  | succ m =>
    rw [hm] at h
    unfold decodeRestAux at h
    rcases hnext : NtfsDataRuns.next r with ⟨item, r'⟩
    rw [hnext] at h
    cases item with
    | none =>
      injection h with h1
      injection h1
    | some x =>
      cases x with
      | error e => injection h
      | ok run2 =>
        replace h : (match decodeRestAux m r' with
            | Except.error e => Except.error e
            | Except.ok rest => Except.ok (run2 :: rest)) =
            Except.ok (run :: rest) := h
        split at h
        · exact absurd h (by simp)
        · rename_i rest2 heq2
          injection h with h1
          injection h1 with h2 h3
          subst h2 h3
          refine ⟨r', rfl, ?_⟩
          have hfacts := next_ok_facts r run2 r' hnext
          have hbound : r'.data.length + 1 - r'.state.offset ≤ m := by
            rw [hfacts.1]
            omega
          unfold decodeRest
          rw [decodeRestAux_mono (r'.data.length + 1 - r'.state.offset) m r'
            (le_refl _) hbound]
          exact heq2

/-- Decoding the empty run list means the next call yields nothing, leaving a
terminated state. -/
theorem decodeRest_nil (r : NtfsDataRuns) (h : decodeRest r = Except.ok []) :
    ∃ r', NtfsDataRuns.next r = (none, r') ∧ decodeRest r' = Except.ok [] ∧
      r'.data = r.data := by
  rcases hnext : NtfsDataRuns.next r with ⟨item, r'⟩
  cases item with
  | none =>
    have hfacts := next_none_facts r r' hnext
    exact ⟨r', rfl, decodeRest_terminated r' hfacts.2, hfacts.1⟩
  | some x =>
    exfalso
    have hoff : r.state.offset < r.data.length := by
      by_contra hge
      rw [next_of_terminated r (by omega)] at hnext
      injection hnext with h1 h2
      injection h1
    unfold decodeRest at h
    cases hm : r.data.length + 1 - r.state.offset with
    | zero => omega
    | succ m =>
      rw [hm] at h
      unfold decodeRestAux at h
      rw [hnext] at h
      cases x with
      | error e => injection h
      | ok run =>
        replace h : (match decodeRestAux m r' with
            | Except.error e => Except.error e
            | Except.ok rest => Except.ok (run :: rest)) = Except.ok [] := h
        split at h
        · exact absurd h (by simp)
        · injection h with h1
          injection h1

/-- Every run produced by decoding satisfies the construction invariants. -/
theorem decodeRest_runs (r : NtfsDataRuns) (l : List NtfsDataRun)
    (h : decodeRest r = Except.ok l) :
    ∀ u ∈ l, u.allocatedSize < 2 ^ 64 ∧ u.streamPosition = 0 := by
  induction l generalizing r with
  | nil => intro u hu; exact absurd hu (List.not_mem_nil u)
  | cons run rest ih =>
    obtain ⟨r', hnext, hrest⟩ := decodeRest_cons r run rest h
    have hfacts := next_ok_facts r run r' hnext
    intro u hu
    rcases List.mem_cons.mp hu with hu1 | hu2
    · subst hu1
      exact ⟨hfacts.2.2.1, hfacts.2.2.2⟩
    · exact ih r' hrest u hu2

/-! ### Read-loop step equations and the well-formed read theorem -/

/-- `next_data_run` on an exhausted decoder reports no further run. -/
theorem nextDataRun_eq_none (v : Value) (rs' : NtfsDataRuns)
    (h : v.streamDataRuns.next = (none, rs')) :
    v.nextDataRun = (Except.ok false, { v with streamDataRuns := rs' }) := by
  unfold Value.nextDataRun
  rw [h]

/-- `next_data_run` on a decoder with a pending run installs it as the
current run. -/
theorem nextDataRun_eq_ok (v : Value) (run : NtfsDataRun) (rs' : NtfsDataRuns)
    (h : v.streamDataRuns.next = (some (Except.ok run), rs')) :
    v.nextDataRun = (Except.ok true, { v with
      streamDataRuns := rs',
      streamState := { v.streamState with streamDataRun := some run } }) := by
  unfold Value.nextDataRun
  rw [h]

/-- One read-loop iteration that made progress. -/
theorem readLoop_step_true (fuel : Nat) (v : Value) (disk : Disk) (buf : List Nat)
    (br : Nat) (s1 : StreamState) (buf1 : List Nat) (disk1 : Disk) (br1 : Nat)
    (hbr : br < buf.length)
    (heq : v.streamState.readDataRun disk buf br = (Except.ok true, s1, buf1, disk1, br1)) :
    Value.readLoop (fuel + 1) v disk buf br =
      Value.readLoop fuel { v with streamState := s1 } disk1 buf1 br1 := by
  conv_lhs => unfold Value.readLoop
  rw [if_pos hbr, heq]

/-- One read-loop iteration that made no progress and pulled another run. -/
theorem readLoop_step_next (fuel : Nat) (v : Value) (disk : Disk) (buf : List Nat)
    (br : Nat) (s1 : StreamState) (buf1 : List Nat) (disk1 : Disk) (br1 : Nat)
    (v2 : Value)
    (hbr : br < buf.length)
    (heq : v.streamState.readDataRun disk buf br = (Except.ok false, s1, buf1, disk1, br1))
    (heq2 : Value.nextDataRun { v with streamState := s1 } = (Except.ok true, v2)) :
    Value.readLoop (fuel + 1) v disk buf br =
      Value.readLoop fuel v2 disk1 buf1 br1 := by
  conv_lhs => unfold Value.readLoop
  rw [if_pos hbr, heq]
  show (match Value.nextDataRun { v with streamState := s1 } with
    | (Except.error e, v') => (Except.error e, v', buf1, disk1)
    | (Except.ok true, v') => Value.readLoop fuel v' disk1 buf1 br1
    | (Except.ok false, v') => (Except.ok br1, v', buf1, disk1)) = _
  rw [heq2]

/-- One read-loop iteration that made no progress with an exhausted decoder:
the loop stops. -/
theorem readLoop_step_stop (fuel : Nat) (v : Value) (disk : Disk) (buf : List Nat)
    (br : Nat) (s1 : StreamState) (buf1 : List Nat) (disk1 : Disk) (br1 : Nat)
    (v2 : Value)
    (hbr : br < buf.length)
    (heq : v.streamState.readDataRun disk buf br = (Except.ok false, s1, buf1, disk1, br1))
    (heq2 : Value.nextDataRun { v with streamState := s1 } = (Except.ok false, v2)) :
    Value.readLoop (fuel + 1) v disk buf br = (Except.ok br1, v2, buf1, disk1) := by
  unfold Value.readLoop
  rw [if_pos hbr, heq]
  show (match Value.nextDataRun { v with streamState := s1 } with
    | (Except.error e, v') => (Except.error e, v', buf1, disk1)
    | (Except.ok true, v') => Value.readLoop fuel v' disk1 buf1 br1
    | (Except.ok false, v') => (Except.ok br1, v', buf1, disk1)) = _
  rw [heq2]

/-- The read loop with a full buffer stops immediately. -/
theorem readLoop_step_full (fuel : Nat) (v : Value) (disk : Disk) (buf : List Nat)
    (br : Nat) (hbr : ¬ br < buf.length) :
    Value.readLoop (fuel + 1) v disk buf br = (Except.ok br, v, buf, disk) := by
  unfold Value.readLoop
  rw [if_neg hbr]

/-- Sum of allocated sizes over a cons cell. -/
theorem sumAlloc_cons (run : NtfsDataRun) (rest : List NtfsDataRun) :
    sumAlloc (run :: rest) = run.allocatedSize + sumAlloc rest := by
  unfold sumAlloc
  rw [List.map_cons, List.sum_cons]

/-- Characterization of reader well-formedness in terms of its pieces. -/
theorem streamWF_iff (v : Value) :
    streamWF v = true ↔
    ∃ l, decodeRest v.streamDataRuns = Except.ok l ∧
      v.streamState.dataSize < 2 ^ 64 ∧
      v.streamState.dataSize ≤
        v.streamState.streamPosition + curRem v.streamState + sumAlloc l ∧
      runAllocOk v.streamState = true := by
  unfold streamWF
  rcases hdec : decodeRest v.streamDataRuns with e | l
  · constructor
    · intro hfalse
      exact absurd hfalse (by simp)
    · rintro ⟨l2, hl2, -⟩
      exact absurd hl2 (by simp)
  · simp only [Bool.and_eq_true, decide_eq_true_eq]
    constructor
    · rintro ⟨⟨h1, h2⟩, h3⟩
      exact ⟨l, rfl, h1, h2, h3⟩
    · rintro ⟨l2, hl2, h1, h2, h3⟩
      injection hl2 with hl2
      subst hl2
      exact ⟨⟨h1, h2⟩, h3⟩

/-- Main loop invariant of `read`: on a well-formed reader the loop fills
exactly `min (free buffer space) (data_size - stream_position)` further bytes,
advances the stream position by that amount, and preserves well-formedness. -/
theorem readLoop_wf (fuel : Nat) :
    ∀ (v : Value) (disk : Disk) (buf : List Nat) (br : Nat) (l : List NtfsDataRun),
    decodeRest v.streamDataRuns = Except.ok l →
    v.streamState.dataSize ≤
      v.streamState.streamPosition + curRem v.streamState + sumAlloc l →
    v.streamState.dataSize < 2 ^ 64 →
    runAllocOk v.streamState = true →
    br ≤ buf.length →
    buf.length - br +
      (v.streamDataRuns.data.length - v.streamDataRuns.state.offset) + 1 ≤ fuel →
    ∃ v' buf' disk',
      Value.readLoop fuel v disk buf br =
        (Except.ok (br + min (buf.length - br)
          (v.streamState.dataSize - v.streamState.streamPosition)), v', buf', disk') ∧
      v'.streamState.streamPosition =
        v.streamState.streamPosition + min (buf.length - br)
          (v.streamState.dataSize - v.streamState.streamPosition) ∧
      v'.streamState.dataSize = v.streamState.dataSize ∧
      streamWF v' = true ∧
      v'.streamDataRuns.data = v.streamDataRuns.data ∧
      buf'.length = buf.length := by
  induction fuel with
  | zero =>
    intro v disk buf br l _ _ _ _ _ hfuel
    omega
  | succ fuel ih =>
    intro v disk buf br l hdec hcap hds hra hble hfuel
    by_cases hbr : br < buf.length
    · rcases heq : v.streamState.readDataRun disk buf br with ⟨r1, s1, buf1, disk1, br1⟩
      have hspec := readDataRun_spec v.streamState disk buf br r1 s1 buf1 disk1 br1 heq
      rcases hspec.2.2.1 with htrue | hfalse
      · -- the current run delivered bytes
        subst htrue
        have ht := hspec.2.2.2.2 rfl
        have hk := ht.2.2.2.2.2.1 hble
        have hcrk := ht.2.2.2.2.2.2.1 hra
        have hds1 : s1.dataSize = v.streamState.dataSize := hspec.1
        have hlen1 : buf1.length = buf.length := hspec.2.1
        have hpos1 : s1.streamPosition = v.streamState.streamPosition + (br1 - br) := by
          rw [ht.2.2.2.2.1]
          unfold wrap64
          have h1 := ht.1
          have h2 := ht.2.2.1
          exact Nat.mod_eq_of_lt (by omega)
        have hcap1 : s1.dataSize ≤ s1.streamPosition + curRem s1 + sumAlloc l := by
          rw [hds1, hpos1, hcrk.1]
          have h1 := ht.2.2.2.2.2.2.2
          omega
        have hds1' : s1.dataSize < 2 ^ 64 := by rw [hds1]; exact hds
        have hble1 : br1 ≤ buf1.length := by rw [hlen1]; omega
        have hfuel1 : buf1.length - br1 +
            (v.streamDataRuns.data.length - v.streamDataRuns.state.offset) + 1 ≤ fuel := by
          rw [hlen1]
          have h1 := ht.1
          have h2 := ht.2.2.2.2.2.2.2
          omega
        obtain ⟨v', buf', disk', hrl, hp', hd', hwf', hdata', hlen'⟩ :=
          ih { v with streamState := s1 } disk1 buf1 br1 l hdec hcap1 hds1' hcrk.2
            hble1 hfuel1
        refine ⟨v', buf', disk', ?_, ?_, ?_, hwf', hdata', hlen'.trans hlen1⟩
        · rw [readLoop_step_true fuel v disk buf br s1 buf1 disk1 br1 hbr heq]
          have hcount : br1 + min (buf1.length - br1)
              (s1.dataSize - s1.streamPosition) =
              br + min (buf.length - br)
                (v.streamState.dataSize - v.streamState.streamPosition) := by
            rw [hlen1, hds1, hpos1]
            have h1 := ht.2.1
            omega
          replace hrl : Value.readLoop fuel { v with streamState := s1 } disk1 buf1 br1 =
              (Except.ok (br1 + min (buf1.length - br1)
                (s1.dataSize - s1.streamPosition)), v', buf', disk') := hrl
          rw [hcount] at hrl
          exact hrl
        · replace hp' : v'.streamState.streamPosition =
              s1.streamPosition + min (buf1.length - br1)
                (s1.dataSize - s1.streamPosition) := hp'
          rw [hp', hlen1, hds1, hpos1]
          have h1 := ht.2.1
          omega
        · replace hd' : v'.streamState.dataSize = s1.dataSize := hd'
          rw [hd', hds1]
      · -- the current run delivered nothing
        obtain ⟨⟨hs1, hbuf1, hdisk1, hbr1⟩, hstop⟩ := hspec.2.2.2.1 hfalse
        subst hfalse
        rw [hs1, hbuf1, hdisk1, hbr1] at heq
        cases l with
        | nil =>
          obtain ⟨rs', hnnone, hdecnil, hdataeq⟩ := decodeRest_nil v.streamDataRuns hdec
          have heq2 : Value.nextDataRun v =
              (Except.ok false, { v with streamDataRuns := rs' }) :=
            nextDataRun_eq_none v rs' hnnone
          have hstep := readLoop_step_stop fuel v disk buf br v.streamState buf disk br
            { v with streamDataRuns := rs' } hbr heq heq2
          have hbudget : v.streamState.dataSize - v.streamState.streamPosition = 0 := by
            rcases hstop with h0 | h0
            · have hsum : sumAlloc [] = 0 := rfl
              omega
            · exact h0
          refine ⟨{ v with streamDataRuns := rs' }, buf, disk, ?_, ?_, rfl, ?_, hdataeq, rfl⟩
          · rw [hstep, hbudget, Nat.min_zero]
            rfl
          · show v.streamState.streamPosition = v.streamState.streamPosition +
              min (buf.length - br)
                (v.streamState.dataSize - v.streamState.streamPosition)
            rw [hbudget, Nat.min_zero]
            rfl
          · exact (streamWF_iff _).mpr ⟨[], hdecnil, hds, hcap, hra⟩
        | cons run rest =>
          obtain ⟨rs', hnok, hdecrest⟩ := decodeRest_cons v.streamDataRuns run rest hdec
          have hfacts := next_ok_facts v.streamDataRuns run rs' hnok
          have heq2 : Value.nextDataRun v = (Except.ok true, { v with
              streamDataRuns := rs',
              streamState := { v.streamState with streamDataRun := some run } }) :=
            nextDataRun_eq_ok v run rs' hnok
          have hstep := readLoop_step_next fuel v disk buf br v.streamState buf disk br
            { v with streamDataRuns := rs',
                     streamState := { v.streamState with streamDataRun := some run } }
            hbr heq heq2
          have hcr2 : curRem { v.streamState with streamDataRun := some run } =
              run.allocatedSize := by
            show run.allocatedSize - run.streamPosition = run.allocatedSize
            rw [hfacts.2.2.2]
            rfl
          have hcap2 : v.streamState.dataSize ≤ v.streamState.streamPosition +
              curRem { v.streamState with streamDataRun := some run } +
              sumAlloc rest := by
            rw [hcr2]
            rw [sumAlloc_cons] at hcap
            rcases hstop with h0 | h0 <;> omega
          have hra2 : runAllocOk { v.streamState with streamDataRun := some run } = true := by
            show decide (run.allocatedSize < 2 ^ 64) = true
            exact decide_eq_true hfacts.2.2.1
          have hoff : v.streamDataRuns.state.offset < v.streamDataRuns.data.length := by
            by_contra hge
            rw [next_of_terminated v.streamDataRuns (by omega)] at hnok
            injection hnok with h1 h2
            injection h1
          have hfuel2 : buf.length - br +
              (rs'.data.length - rs'.state.offset) + 1 ≤ fuel := by
            rw [hfacts.1]
            have h1 := hfacts.2.1
            omega
          obtain ⟨v', buf', disk', hrl, hp', hd', hwf', hdata', hlen'⟩ :=
            ih { v with streamDataRuns := rs',
                        streamState := { v.streamState with streamDataRun := some run } }
              disk buf br rest hdecrest hcap2 hds hra2 hble hfuel2
          refine ⟨v', buf', disk', ?_, hp', hd', hwf', hdata'.trans hfacts.1,
            hlen'⟩
          rw [hstep]
          exact hrl
    · have hbe : buf.length - br = 0 := by omega
      refine ⟨v, buf, disk, ?_, ?_, rfl, ?_, rfl, rfl⟩
      · rw [readLoop_step_full fuel v disk buf br hbr, hbe, Nat.zero_min]
        rfl
      · show v.streamState.streamPosition = v.streamState.streamPosition +
          min (buf.length - br)
            (v.streamState.dataSize - v.streamState.streamPosition)
        rw [hbe, Nat.zero_min]
        rfl
      · exact (streamWF_iff v).mpr ⟨l, hdec, hds, hcap, hra⟩

/-- `read` on a well-formed reader fills `min (buffer length)
(data_size - stream_position)` bytes and stays well-formed. -/
theorem read_wf (v : Value) (disk : Disk) (buf : List Nat)
    (hwf : streamWF v = true) :
    ∃ v' buf' disk',
      v.read disk buf =
        (Except.ok (min buf.length
          (v.streamState.dataSize - v.streamState.streamPosition)), v', buf', disk') ∧
      v'.streamState.streamPosition =
        v.streamState.streamPosition + min buf.length
          (v.streamState.dataSize - v.streamState.streamPosition) ∧
      v'.streamState.dataSize = v.streamState.dataSize ∧
      streamWF v' = true ∧
      v'.streamDataRuns.data = v.streamDataRuns.data ∧
      buf'.length = buf.length := by
  obtain ⟨l, hdec, hds, hcap, hra⟩ := (streamWF_iff v).mp hwf
  obtain ⟨v', buf', disk', hrl, hp, hd, hwf', hdata, hlen⟩ :=
    readLoop_wf (buf.length + v.streamDataRuns.data.length + 1) v disk buf 0 l
      hdec hcap hds hra (Nat.zero_le _) (by omega)
  refine ⟨v', buf', disk', ?_, ?_, hd, hwf', hdata, hlen⟩
  · unfold Value.read
    rw [hrl, Nat.zero_add, Nat.sub_zero]
  · rw [hp, Nat.sub_zero]

/-- One step of `readSeq` after a successful `read`. -/
theorem readSeq_cons_eq (v : Value) (disk : Disk) (buf : List Nat)
    (bufs : List (List Nat)) (c : Nat) (v1 : Value) (buf1 : List Nat) (disk1 : Disk)
    (h : v.read disk buf = (Except.ok c, v1, buf1, disk1)) :
    v.readSeq disk (buf :: bufs) =
      (match v1.readSeq disk1 bufs with
       | (Except.error e, v2, disk2) => (Except.error e, v2, disk2)
       | (Except.ok rs, v2, disk2) => (Except.ok (c :: rs), v2, disk2)) := by
  conv_lhs => unfold Value.readSeq
  rw [h]

/-- Telescoped accounting over a sequence of `read` calls on a well-formed
reader: the returned counts sum to `min (total buffer space)
(data_size - stream_position)`. -/
theorem readSeq_wf (bufs : List (List Nat)) :
    ∀ (v : Value) (disk : Disk), streamWF v = true →
    ∃ rs v' disk',
      v.readSeq disk bufs = (Except.ok rs, v', disk') ∧
      rs.length = bufs.length ∧
      rs.sum = min (bufs.map List.length).sum
        (v.streamState.dataSize - v.streamState.streamPosition) ∧
      v'.streamState.streamPosition = v.streamState.streamPosition + rs.sum ∧
      v'.streamState.dataSize = v.streamState.dataSize ∧
      streamWF v' = true := by
  induction bufs with
  | nil =>
    intro v disk hwf
    refine ⟨[], v, disk, rfl, rfl, ?_, rfl, rfl, hwf⟩
    show (0 : Nat) = min (List.map List.length []).sum _
    simp
  | cons buf bufs ih =>
    intro v disk hwf
    obtain ⟨v1, buf1, disk1, hrd, hp1, hd1, hwf1, _, _⟩ := read_wf v disk buf hwf
    obtain ⟨rs, v2, disk2, hsq, hlen, hsum, hp2, hd2, hwf2⟩ := ih v1 disk1 hwf1
    refine ⟨min buf.length
        (v.streamState.dataSize - v.streamState.streamPosition) :: rs,
      v2, disk2, ?_, ?_, ?_, ?_, hd2.trans hd1, hwf2⟩
    · rw [readSeq_cons_eq v disk buf bufs _ v1 buf1 disk1 hrd, hsq]
    · simp [hlen]
    · rw [List.sum_cons, List.map_cons, List.sum_cons, hsum, hd1, hp1]
      omega
    · rw [hp2, hp1, List.sum_cons]
      omega

/-- A freshly constructed reader starts at stream position 0 with the declared
data size. -/
theorem valueNew_state (ntfs : Ntfs) (data : List Nat) (position dataSize : Nat)
    (v : Value) (h : Value.new ntfs data position dataSize = Except.ok v) :
    v.streamState.streamPosition = 0 ∧ v.streamState.dataSize = dataSize := by
  unfold Value.new at h
  simp only [] at h
  split at h
  · injection h with h1
    subst h1
    exact ⟨rfl, rfl⟩
  · injection h
  · injection h with h1
    subst h1
    exact ⟨rfl, rfl⟩

/-- The byte counts returned by a sequence of `read` calls. -/
def readSeqCounts (v : Value) (disk : Disk) (bufs : List (List Nat)) :
    Except NtfsError (List Nat) :=
  (v.readSeq disk bufs).1

/-- A successful from-start seek lands exactly at the requested position and
reports it, preserving the declared data size. -/
theorem seek_start_ok (v : Value) (disk : Disk) (n : Nat) (m : Nat)
    (v1 : Value) (disk1 : Disk) (hn : n < 2 ^ 64)
    (h : v.seek disk (SeekFrom.Start n) = (Except.ok m, v1, disk1)) :
    m = n ∧ v1.streamState.streamPosition = n ∧
    v1.streamState.dataSize = v.streamState.dataSize := by
  have hopt : v.streamState.optimizeSeek (SeekFrom.Start n) v.len =
      (match checkedSub64 n v.streamState.streamPosition with
       | some nFC =>
         match i64TryFromU64 nFC with
         | some d => Except.ok (SeekFrom.Current d)
         | none => Except.ok (SeekFrom.Start n)
       | none => Except.ok (SeekFrom.Start n)) := rfl
  unfold Value.seek at h
  rcases hsub : checkedSub64 n v.streamState.streamPosition with _ | nFC
  · rw [hsub] at hopt
    replace hopt : v.streamState.optimizeSeek (SeekFrom.Start n) v.len =
        Except.ok (SeekFrom.Start n) := hopt
    rw [hopt] at h
    replace h : Value.seekTail { v with
        streamDataRuns := v.dataRuns,
        streamState := StreamState.new v.len } disk (SeekFrom.Start n) n =
        (Except.ok m, v1, disk1) := h
    obtain ⟨h1, h2, h3, -⟩ := seekTail_start _ disk n n m v1 disk1 h
    exact ⟨h1, h2, h3⟩
  · have hps : v.streamState.streamPosition ≤ n ∧
        nFC = n - v.streamState.streamPosition := by
      unfold checkedSub64 at hsub
      split at hsub
      · rename_i hle
        injection hsub with h1
        exact ⟨hle, h1.symm⟩
      · injection hsub
    rw [hsub] at hopt
    replace hopt : v.streamState.optimizeSeek (SeekFrom.Start n) v.len =
        (match i64TryFromU64 nFC with
         | some d => Except.ok (SeekFrom.Current d)
         | none => Except.ok (SeekFrom.Start n)) := hopt
    rcases htf : i64TryFromU64 nFC with _ | d
    · rw [htf] at hopt
      replace hopt : v.streamState.optimizeSeek (SeekFrom.Start n) v.len =
          Except.ok (SeekFrom.Start n) := hopt
      rw [hopt] at h
      replace h : Value.seekTail { v with
          streamDataRuns := v.dataRuns,
          streamState := StreamState.new v.len } disk (SeekFrom.Start n) n =
          (Except.ok m, v1, disk1) := h
      obtain ⟨h1, h2, h3, -⟩ := seekTail_start _ disk n n m v1 disk1 h
      exact ⟨h1, h2, h3⟩
    · have hd : d = (nFC : Int) ∧ nFC < 2 ^ 63 := by
        unfold i64TryFromU64 at htf
        split at htf
        · rename_i hlt
          injection htf with h1
          exact ⟨h1.symm, hlt⟩
        · injection htf
      rw [htf] at hopt
      replace hopt : v.streamState.optimizeSeek (SeekFrom.Start n) v.len =
          Except.ok (SeekFrom.Current d) := hopt
      rw [hopt] at h
      replace h : (if (0 : Int) ≤ d then
          Value.seekTail v disk (SeekFrom.Current d) d.toNat
        else (Except.error (NtfsError.IoErr IoErrKind.InvalidInput), v, disk)) =
          (Except.ok m, v1, disk1) := h
      rw [if_pos (by rw [hd.1]; exact Int.natCast_nonneg _)] at h
      obtain ⟨h1, h2, h3, -⟩ := seekTail_current v disk d d.toNat m v1 disk1 h
      have hu : u64OfI64 d = nFC := by
        rw [hd.1]
        unfold u64OfI64
        rw [Int.emod_eq_of_lt (Int.natCast_nonneg _)
          (by exact_mod_cast (by omega : nFC < 2 ^ 64))]
        exact Int.toNat_natCast nFC
      have hm : wrap64 (v.streamState.streamPosition + u64OfI64 d) = n := by
        rw [hu, hps.2]
        unfold wrap64
        have := hps.1
        omega
      rw [hm] at h1 h2
      exact ⟨h1, h2, h3⟩

/-! ### C2 -/

/-- C2 (amended): for every reader and target `n ≥ len()`, if the from-start
seek to `n` succeeds **and the reader state after the seek is well-formed**
(run list decodes, sizes in `u64` range — the original claim fails without
this: a corrupt run list past the seek point makes the following read return a
decode error, see the counterexample), then the seek reported `n` and a
subsequent read with any buffer returns 0 bytes and no error. -/
theorem c2_read_after_seek_past_end (v : Value) (disk : Disk) (n : Nat)
    (buf : List Nat) (m : Nat) (v1 : Value) (disk1 : Disk)
    (hn : n < 2 ^ 64)
    (hseek : v.seek disk (SeekFrom.Start n) = (Except.ok m, v1, disk1))
    (hlen : v.len ≤ n)
    (hwf : streamWF v1 = true) :
    m = n ∧ (v1.read disk1 buf).1 = Except.ok 0 := by
  obtain ⟨hm, hp, hd⟩ := seek_start_ok v disk n m v1 disk1 hn hseek
  obtain ⟨v2, buf2, disk2, hrd, -⟩ := read_wf v1 disk1 buf hwf
  refine ⟨hm, ?_⟩
  rw [hrd]
  show Except.ok (min buf.length
    (v1.streamState.dataSize - v1.streamState.streamPosition)) = Except.ok 0
  have hz : v1.streamState.dataSize - v1.streamState.streamPosition = 0 := by
    rw [hd, hp]
    unfold Value.len at hlen
    omega
  rw [hz, Nat.min_zero]

/-- C2 witness: a concrete well-formed reader (data size 100, one 512-byte
run), seeking to 150 ≥ 100 succeeds returning 150, and the following read
returns 0 bytes and no error. -/
theorem c2_read_after_seek_past_end_witness :
    Value.seek ⟨⟨512⟩, [17, 1, 1, 0], 0, ⟨⟨512⟩, [17, 1, 1, 0], 0, ⟨3, 1⟩⟩,
        ⟨some ⟨512, 512, 0⟩, 0, 100⟩⟩ ⟨[], 0, 0⟩ (SeekFrom.Start 150) =
      (Except.ok 150, ⟨⟨512⟩, [17, 1, 1, 0], 0, ⟨⟨512⟩, [17, 1, 1, 0], 0, ⟨3, 1⟩⟩,
        ⟨some ⟨512, 512, 150⟩, 150, 100⟩⟩, ⟨[], 0, 0⟩) ∧
    streamWF ⟨⟨512⟩, [17, 1, 1, 0], 0, ⟨⟨512⟩, [17, 1, 1, 0], 0, ⟨3, 1⟩⟩,
        ⟨some ⟨512, 512, 150⟩, 150, 100⟩⟩ = true ∧
    (150 = 150 ∧
      (Value.read ⟨⟨512⟩, [17, 1, 1, 0], 0, ⟨⟨512⟩, [17, 1, 1, 0], 0, ⟨3, 1⟩⟩,
          ⟨some ⟨512, 512, 150⟩, 150, 100⟩⟩ ⟨[], 0, 0⟩
        (List.replicate 8 0)).1 = Except.ok 0) :=
  ⟨by decide, by decide,
    c2_read_after_seek_past_end
      ⟨⟨512⟩, [17, 1, 1, 0], 0, ⟨⟨512⟩, [17, 1, 1, 0], 0, ⟨3, 1⟩⟩,
        ⟨some ⟨512, 512, 0⟩, 0, 100⟩⟩ ⟨[], 0, 0⟩ 150 (List.replicate 8 0) 150
      ⟨⟨512⟩, [17, 1, 1, 0], 0, ⟨⟨512⟩, [17, 1, 1, 0], 0, ⟨3, 1⟩⟩,
        ⟨some ⟨512, 512, 150⟩, 150, 100⟩⟩ ⟨[], 0, 0⟩
      (by norm_num) (by decide) (by decide) (by decide)⟩

/-- C2 counterexample (to the unamended claim): over the corrupt run list
`[0x11, 0x01, 0x01, 0x09]` with declared data size 0, the reader constructs
fine, a from-start seek to 0 ≥ len() succeeds returning 0 and changing
nothing, yet the following read returns the decode error
`InvalidByteCountInDataRunHeader` instead of 0 bytes: a successful past-end
seek alone does not guarantee an error-free read. -/
theorem c2_counterexample :
    Value.new ⟨512⟩ [17, 1, 1, 9] 0 0 =
      Except.ok ⟨⟨512⟩, [17, 1, 1, 9], 0, ⟨⟨512⟩, [17, 1, 1, 9], 0, ⟨3, 1⟩⟩,
        ⟨some ⟨512, 512, 0⟩, 0, 0⟩⟩ ∧
    Value.seek ⟨⟨512⟩, [17, 1, 1, 9], 0, ⟨⟨512⟩, [17, 1, 1, 9], 0, ⟨3, 1⟩⟩,
        ⟨some ⟨512, 512, 0⟩, 0, 0⟩⟩ ⟨[], 0, 0⟩ (SeekFrom.Start 0) =
      (Except.ok 0, ⟨⟨512⟩, [17, 1, 1, 9], 0, ⟨⟨512⟩, [17, 1, 1, 9], 0, ⟨3, 1⟩⟩,
        ⟨some ⟨512, 512, 0⟩, 0, 0⟩⟩, ⟨[], 0, 0⟩) ∧
    Value.len ⟨⟨512⟩, [17, 1, 1, 9], 0, ⟨⟨512⟩, [17, 1, 1, 9], 0, ⟨3, 1⟩⟩,
        ⟨some ⟨512, 512, 0⟩, 0, 0⟩⟩ ≤ 0 ∧
    (Value.read ⟨⟨512⟩, [17, 1, 1, 9], 0, ⟨⟨512⟩, [17, 1, 1, 9], 0, ⟨3, 1⟩⟩,
        ⟨some ⟨512, 512, 0⟩, 0, 0⟩⟩ ⟨[], 0, 0⟩ (List.replicate 8 0)).1 =
      Except.error (NtfsError.InvalidByteCountInDataRunHeader 3 9 8) := by
  decide

/-! ### C3 -/

/-- C3 (amended): for every reader constructed by `Value.new` **whose state is
well-formed** (in particular the declared `data_size` does not exceed the total
allocated capacity of the run list — the original claim fails without this,
see the counterexample), the byte counts of a sequence of reads sum to
`min (total buffer space) (len())`; as soon as the buffers provide at least
`len()` bytes of space (which holds once a call has returned 0), the counts
sum to exactly `len()`. -/
theorem c3_read_seq_totals (ntfs : Ntfs) (data : List Nat)
    (position dataSize : Nat) (v : Value) (disk : Disk) (bufs : List (List Nat))
    (hnew : Value.new ntfs data position dataSize = Except.ok v)
    (hwf : streamWF v = true) :
    Except.map List.sum (readSeqCounts v disk bufs) =
      Except.ok (min (bufs.map List.length).sum v.len) ∧
    (v.len ≤ (bufs.map List.length).sum →
      Except.map List.sum (readSeqCounts v disk bufs) = Except.ok v.len) := by
  obtain ⟨hp0, -⟩ := valueNew_state ntfs data position dataSize v hnew
  obtain ⟨rs, v', disk', hsq, -, hsum, -, -, -⟩ := readSeq_wf bufs v disk hwf
  have hc : Except.map List.sum (readSeqCounts v disk bufs) =
      Except.ok rs.sum := by
    unfold readSeqCounts
    rw [hsq]
    rfl
  have hsum' : rs.sum = min (bufs.map List.length).sum v.len := by
    unfold Value.len
    rw [hsum, hp0, Nat.sub_zero]
  constructor
  · rw [hc, hsum']
  · intro hge
    rw [hc, hsum', min_eq_right hge]

set_option maxRecDepth 40000 in
/-- C3 witness, the claim's concrete scenario: declared data size 100 over a
single run of allocated size 512 (run list `[0x11, 0x01, 0x01, 0x00]`, cluster
size 512); two reads with 1000-byte buffers return exactly the counts
`[100, 0]`, summing to `len()` = 100. -/
theorem c3_read_seq_totals_witness :
    Value.new ⟨512⟩ [17, 1, 1, 0] 0 100 =
      Except.ok ⟨⟨512⟩, [17, 1, 1, 0], 0, ⟨⟨512⟩, [17, 1, 1, 0], 0, ⟨3, 1⟩⟩,
        ⟨some ⟨512, 512, 0⟩, 0, 100⟩⟩ ∧
    streamWF ⟨⟨512⟩, [17, 1, 1, 0], 0, ⟨⟨512⟩, [17, 1, 1, 0], 0, ⟨3, 1⟩⟩,
        ⟨some ⟨512, 512, 0⟩, 0, 100⟩⟩ = true ∧
    (Except.map List.sum (readSeqCounts
        ⟨⟨512⟩, [17, 1, 1, 0], 0, ⟨⟨512⟩, [17, 1, 1, 0], 0, ⟨3, 1⟩⟩,
          ⟨some ⟨512, 512, 0⟩, 0, 100⟩⟩ ⟨[], 0, 0⟩
        [List.replicate 1000 0, List.replicate 1000 0]) =
      Except.ok (min (List.map List.length
          [List.replicate 1000 0, List.replicate 1000 0]).sum
        (Value.len ⟨⟨512⟩, [17, 1, 1, 0], 0, ⟨⟨512⟩, [17, 1, 1, 0], 0, ⟨3, 1⟩⟩,
          ⟨some ⟨512, 512, 0⟩, 0, 100⟩⟩)) ∧
      (Value.len ⟨⟨512⟩, [17, 1, 1, 0], 0, ⟨⟨512⟩, [17, 1, 1, 0], 0, ⟨3, 1⟩⟩,
          ⟨some ⟨512, 512, 0⟩, 0, 100⟩⟩ ≤
        (List.map List.length [List.replicate 1000 0, List.replicate 1000 0]).sum →
        Except.map List.sum (readSeqCounts
          ⟨⟨512⟩, [17, 1, 1, 0], 0, ⟨⟨512⟩, [17, 1, 1, 0], 0, ⟨3, 1⟩⟩,
            ⟨some ⟨512, 512, 0⟩, 0, 100⟩⟩ ⟨[], 0, 0⟩
          [List.replicate 1000 0, List.replicate 1000 0]) =
        Except.ok (Value.len ⟨⟨512⟩, [17, 1, 1, 0], 0,
          ⟨⟨512⟩, [17, 1, 1, 0], 0, ⟨3, 1⟩⟩, ⟨some ⟨512, 512, 0⟩, 0, 100⟩⟩))) ∧
    readSeqCounts ⟨⟨512⟩, [17, 1, 1, 0], 0, ⟨⟨512⟩, [17, 1, 1, 0], 0, ⟨3, 1⟩⟩,
        ⟨some ⟨512, 512, 0⟩, 0, 100⟩⟩ ⟨[], 0, 0⟩
      [List.replicate 1000 0, List.replicate 1000 0] = Except.ok [100, 0] :=
  ⟨by decide, by decide,
    c3_read_seq_totals ⟨512⟩ [17, 1, 1, 0] 0 100
      ⟨⟨512⟩, [17, 1, 1, 0], 0, ⟨⟨512⟩, [17, 1, 1, 0], 0, ⟨3, 1⟩⟩,
        ⟨some ⟨512, 512, 0⟩, 0, 100⟩⟩ ⟨[], 0, 0⟩
      [List.replicate 1000 0, List.replicate 1000 0] (by decide) (by decide),
    by decide⟩

/-- C3 counterexample (to the unamended claim): a reader constructed with
declared `data_size = 10` over a run list whose single run only allocates 4
bytes (cluster size 4, run list `[0x11, 0x01, 0x01, 0x00]`).  Reading with
8-byte buffers until a call returns 0 yields the counts `[4, 0]`: their sum 4
differs from `len()` = 10, so without a capacity assumption the sum of reads
does not equal `len()`. -/
theorem c3_counterexample :
    Value.new ⟨4⟩ [17, 1, 1, 0] 0 10 =
      Except.ok ⟨⟨4⟩, [17, 1, 1, 0], 0, ⟨⟨4⟩, [17, 1, 1, 0], 0, ⟨3, 1⟩⟩,
        ⟨some ⟨4, 4, 0⟩, 0, 10⟩⟩ ∧
    readSeqCounts ⟨⟨4⟩, [17, 1, 1, 0], 0, ⟨⟨4⟩, [17, 1, 1, 0], 0, ⟨3, 1⟩⟩,
        ⟨some ⟨4, 4, 0⟩, 0, 10⟩⟩ ⟨[], 0, 0⟩
      [List.replicate 8 7, List.replicate 8 7] = Except.ok [4, 0] ∧
    Value.len ⟨⟨4⟩, [17, 1, 1, 0], 0, ⟨⟨4⟩, [17, 1, 1, 0], 0, ⟨3, 1⟩⟩,
        ⟨some ⟨4, 4, 0⟩, 0, 10⟩⟩ = 10 ∧
    (4 : Nat) + 0 ≠ 10 := by
  decide

end NtfsProof
